import Mathlib

set_option maxHeartbeats 1000000

/-!
Verification of the bidirectional ClickHouse / flat-file integrator backend.

The definitions below are a shallow embedding of the Python sources
(`clickhouse_client.py`, `file_handler.py`, `ingestion.py`, `app.py`).
Pure computations (identifier validation, type coercion, CSV encoding and
decoding, batching) are translated directly; I/O boundaries (the ClickHouse
driver, the file system) are abstracted as explicit `Except`-valued oracles
passed as arguments, and the progress callback is modelled by returning the
list of emitted events.

Modelling conventions for Python built-ins:
- `int(s)` / `float(s)`: ASCII decimal forms with optional sign and
  surrounding whitespace; `inf`/`infinity`/`nan` literals are recognised for
  `float`.  Numeric-literal underscores, exponent notation and non-ASCII
  digits are not modelled, and the rounding of a decimal literal to the
  nearest binary double is not modelled (truncation of the exact decimal is
  used); the claims only evaluate these at short literals where both agree.
- `str.lower()` / `str.upper()` / `str.strip()` use ASCII case mapping and
  ASCII whitespace.
- Exceptions are an explicit error type `PyErr`; `except (ValueError,
  TypeError)` clauses catch exactly those constructors.
-/

namespace CHI

/-- Python-like scalar values flowing through the pipeline: CSV cells are
strings, `csv.DictReader`'s `restval` is `None`, and the coercers produce
ints and `datetime.date` values. -/
inductive PyVal where
  | vNone : PyVal
  | vStr (s : String) : PyVal
  | vInt (n : Int) : PyVal
  | vDate (y m d : Nat) : PyVal
  deriving DecidableEq, Repr

/-- Python exception kinds relevant to the translated code. -/
inductive PyErr where
  | valueError (msg : String) : PyErr
  | typeError (msg : String) : PyErr
  | overflowError (msg : String) : PyErr
  | indexError (msg : String) : PyErr
  deriving DecidableEq, Repr

/-- Message text of an exception, as `str(e)` would produce. -/
def pyErrStr : PyErr → String
  | .valueError m => m
  | .typeError m => m
  | .overflowError m => m
  | .indexError m => m

/-- Python truthiness (`bool(value)`) for the values we model. -/
def pyTruthy : PyVal → Bool
  | .vNone => false
  | .vStr s => !s.isEmpty
  | .vInt n => n != 0
  | .vDate _ _ _ => true

/-- ASCII lowercase, modelling `str.lower()` on the ASCII inputs used here. -/
def pyLower (s : String) : String := String.mk (s.data.map Char.toLower)

/-- ASCII uppercase, modelling `str.upper()`. -/
def pyUpper (s : String) : String := String.mk (s.data.map Char.toUpper)

/-- Strip leading and trailing whitespace from a character list
(`str.strip()`, and the whitespace tolerance of `int()` / `float()`). -/
def stripChars (cs : List Char) : List Char :=
  ((cs.dropWhile Char.isWhitespace).reverse.dropWhile Char.isWhitespace).reverse

/-- String-level strip, modelling `str.strip()`. -/
def pyStripStr (s : String) : String := String.mk (stripChars s.data)

/-- Value of a list of ASCII digits. -/
def digitsVal (ds : List Char) : Nat :=
  ds.foldl (fun a c => 10 * a + (c.toNat - 48)) 0

/-- Split a character list at every occurrence of a separator character. -/
def splitOnChar (sep : Char) : List Char → List (List Char)
  | [] => [[]]
  | c :: t =>
      if c = sep then [] :: splitOnChar sep t
      else
        match splitOnChar sep t with
        | h :: t2 => (c :: h) :: t2
        | [] => [[c]]

/-- Parse a non-empty all-digit character list. -/
def natDigits (ds : List Char) : Option Nat :=
  if !ds.isEmpty && ds.all Char.isDigit then some (digitsVal ds) else none

/-- Model of Python `int(s)` for a string argument: optional surrounding
whitespace, optional sign, decimal digits.  A fractional literal such as
`"3.7"` is rejected, as in Python. -/
def pyIntParse (s : String) : Option Int :=
  match stripChars s.data with
  | '+' :: ds => (natDigits ds).map (fun n => (n : Int))
  | '-' :: ds => (natDigits ds).map (fun n => -(n : Int))
  | ds => (natDigits ds).map (fun n => (n : Int))

/-- Outcome of Python `int(float(s))`: a finite float truncates toward zero,
an infinity raises `OverflowError` at `int()`, a NaN raises `ValueError` at
`int()`, and an unparsable string raises `ValueError` at `float()`. -/
inductive FloatParse where
  | finite (trunc : Int) : FloatParse
  | infinite : FloatParse
  | nan : FloatParse
  | fail : FloatParse
  deriving DecidableEq, Repr

/-- Core of the `float(s)` model after sign removal: `inf`, `infinity` and
`nan` literals (case-insensitive), otherwise decimal digits with an optional
single point. -/
def floatCore (neg : Bool) (ds : List Char) : FloatParse :=
  let low := ds.map Char.toLower
  if low = "inf".data || low = "infinity".data then .infinite
  else if low = "nan".data then .nan
  else
    match splitOnChar '.' ds with
    | [a] =>
        if !a.isEmpty && a.all Char.isDigit then
          .finite (if neg then -(digitsVal a : Int) else (digitsVal a : Int))
        else .fail
    | [a, b] =>
        if !(a ++ b).isEmpty && (a ++ b).all Char.isDigit then
          .finite (if neg then -(digitsVal a : Int) else (digitsVal a : Int))
        else .fail
    | _ => .fail

/-- Model of Python `float(s)` followed by `int(...)` for a string argument. -/
def pyFloatTruncParse (s : String) : FloatParse :=
  match stripChars s.data with
  | '+' :: ds => floatCore false ds
  | '-' :: ds => floatCore true ds
  | ds => floatCore false ds

/-- Model of `int(value)` on a pipeline value. -/
def pyIntOf : PyVal → Except PyErr Int
  | .vStr s =>
      match pyIntParse s with
      | some n => .ok n
      | none => .error (.valueError ("invalid literal for int() with base 10: " ++ s))
  | .vInt n => .ok n
  | .vNone => .error (.typeError "int() argument must be a string, a bytes-like object or a real number, not NoneType")
  | .vDate _ _ _ => .error (.typeError "int() argument must be a string, a bytes-like object or a real number, not datetime.date")

/-- Model of `int(float(value))` on a pipeline value. -/
def pyIntFloatOf : PyVal → Except PyErr Int
  | .vStr s =>
      match pyFloatTruncParse s with
      | .finite k => .ok k
      | .infinite => .error (.overflowError "cannot convert float infinity to integer")
      | .nan => .error (.valueError "cannot convert float NaN to integer")
      | .fail => .error (.valueError ("could not convert string to float: " ++ s))
  | .vInt n => .ok n
  | .vNone => .error (.typeError "float() argument must be a string or a real number, not NoneType")
  | .vDate _ _ _ => .error (.typeError "float() argument must be a string or a real number, not datetime.date")

/-- Model of an `except (ValueError, TypeError): value = 0` block around an
integer conversion, as used by the named coercion profiles.  Note that an
`OverflowError` is not caught. -/
def catchVT (x : Except PyErr Int) : Except PyErr PyVal :=
  match x with
  | .ok n => .ok (.vInt n)
  | .error (.valueError _) => .ok (.vInt 0)
  | .error (.typeError _) => .ok (.vInt 0)
  | .error e => .error e

/-- Substring test on character lists (Python `needle in haystack`). -/
def listHas (needle : List Char) : List Char → Bool
  | [] => needle.isEmpty
  | c :: t => needle.isPrefixOf (c :: t) || listHas needle t

/-- Substring test on strings. -/
def hasSub (needle hay : String) : Bool := listHas needle.data hay.data

/-! ## Identifier validation (`clickhouse_client.py`)

Every data-access method begins with
`re.match(r'^[a-zA-Z0-9_]+$', name)`.  Python's `re.match` anchors at the
start of the string, and `$` matches either at the end of the string or just
before a single trailing newline, so the check accepts one optional trailing
`'\n'` after the run of word characters.  Since the character class contains
no `'\n'`, the greedy `+` needs no backtracking and maximal munch is exact. -/

/-- Membership in the regex class `[a-zA-Z0-9_]`. -/
def isWordChar (c : Char) : Bool :=
  ('A' ≤ c && c ≤ 'Z') || ('a' ≤ c && c ≤ 'z') || ('0' ≤ c && c ≤ '9') || c = '_'

/-- Model of `bool(re.match(r'^[a-zA-Z0-9_]+$', s))` with Python's `$`
semantics (see the section comment). -/
def valid_ident (s : String) : Bool :=
  !(s.data.takeWhile isWordChar).isEmpty
    && ((s.data.drop (s.data.takeWhile isWordChar).length).isEmpty
        || s.data.drop (s.data.takeWhile isWordChar).length = ['\n'])

/-- Strict anchored interpretation of the identifier rule.  This second
definition follows the spec's words (`^[A-Za-z0-9_]+$` read as full-string
match) for comparison against `valid_ident`, the code's actual behaviour. -/
def spec_ident_matches (s : String) : Bool :=
  !s.data.isEmpty && s.data.all isWordChar

/-- A single-quote character, used when assembling the error messages. -/
def sq : String := String.singleton (Char.ofNat 39)

/-- The fixed error message raised for an invalid table name (it does not
mention the table name itself). -/
def invalidTableMsg : String :=
  "Invalid table name. Only alphanumeric characters and underscores are allowed."

/-- The error message raised for an invalid column name; unlike the table
message it quotes the offending identifier. -/
def invalidColumnMsg (col : String) : String :=
  "Invalid column name: " ++ sq ++ col ++ sq ++
    ". Only alphanumeric characters and underscores are allowed."

/-- The table-name check at the top of each client method. -/
def validate_table (table : String) : Except String Unit :=
  if valid_ident table then .ok () else .error invalidTableMsg

/-- The `for col in columns` check: raises at the first invalid column. -/
def validate_columns : List String → Except String Unit
  | [] => .ok ()
  | c :: cs =>
      if valid_ident c then validate_columns cs else .error (invalidColumnMsg c)

/-- Comma-join, modelling `', '.join(columns)`. -/
def joinComma : List String → String
  | [] => ""
  | [c] => c
  | c :: cs => c ++ ", " ++ joinComma cs

namespace ClickHouseClient

/-- Database rows are lists of values. -/
abbrev Row := List CHI.PyVal

/-- Model of `ClickHouseClient.get_columns`: validates the table name, then
issues `DESCRIBE TABLE`.  The returned string is the query issued; an
identifier failure returns before any query exists. -/
def get_columns (table : String) : Except String String :=
  match validate_table table with
  | .error e => .error e
  | .ok _ => .ok ("DESCRIBE TABLE " ++ table)

/-- Model of `ClickHouseClient.count_rows`; `res` abstracts the driver's
answer to the count query. -/
def count_rows (table : String) (res : Except String Nat) : Except String Nat :=
  match validate_table table with
  | .error e => .error e
  | .ok _ =>
      match res with
      | .ok n => .ok n
      | .error e =>
          .error ("Failed to count rows in table " ++ sq ++ table ++ sq ++ ": " ++ e)

/-- Model of `ClickHouseClient.fetch_data`: validates the table and every
column, then issues a single projection query.  Returns the query together
with the rows the driver produced. -/
def fetch_data (table : String) (columns : List String)
    (res : Except String (List Row)) : Except String (String × List Row) :=
  match validate_table table with
  | .error e => .error e
  | .ok _ =>
      match validate_columns columns with
      | .error e => .error e
      | .ok _ =>
          match res with
          | .ok rows => .ok ("SELECT " ++ joinComma columns ++ " FROM " ++ table, rows)
          | .error e =>
              .error ("Failed to fetch data from table " ++ sq ++ table ++ sq ++ ": " ++ e)

/-- Model of `ClickHouseClient.preview_data` (same validation, query capped
at 100 rows). -/
def preview_data (table : String) (columns : List String)
    (res : Except String (List Row)) : Except String (String × List Row) :=
  match validate_table table with
  | .error e => .error e
  | .ok _ =>
      match validate_columns columns with
      | .error e => .error e
      | .ok _ =>
          match res with
          | .ok rows =>
              .ok ("SELECT " ++ joinComma columns ++ " FROM " ++ table ++ " LIMIT 100",
                rows.take 100)
          | .error e =>
              .error ("Failed to preview data from table " ++ sq ++ table ++ sq ++ ": " ++ e)

/-- Model of `ClickHouseClient.insert_data`: validates the table and the
columns, rejects an empty row list, then executes one bulk insert query
covering all rows.  `exec` abstracts the driver's outcome for that single
query; on success the issued query and the full row list are returned. -/
def insert_data (table : String) (columns : List String) (data : List Row)
    (exec : Except String Unit) : Except String (String × List Row) :=
  match validate_table table with
  | .error e => .error e
  | .ok _ =>
      match validate_columns columns with
      | .error e => .error e
      | .ok _ =>
          if data.isEmpty then .error "No data to insert"
          else
            match exec with
            | .ok _ =>
                .ok ("INSERT INTO " ++ table ++ " (" ++ joinComma columns ++ ") VALUES", data)
            | .error e =>
                .error ("Failed to insert data into table " ++ sq ++ table ++ sq ++ ": " ++ e)

end ClickHouseClient

/-! ## Date parsing (`datetime.datetime.strptime(value, fmt).date()`)

CPython's `_strptime` compiles `%Y` to exactly four digits and `%m`, `%d`
to one or two digits in range (leading zero allowed); the whole string must
be consumed and `datetime` then validates the calendar date (month lengths,
leap years, year at least 1). -/

/-- The three formats appearing in the sources. -/
inductive DateFmt where
  | ymdDash
  | dmySlash
  | ymdSlash
  deriving DecidableEq, Repr

/-- Gregorian leap-year rule, as used by `datetime`. -/
def isLeap (y : Nat) : Bool := (y % 4 = 0 && y % 100 ≠ 0) || y % 400 = 0

/-- Days in a month, as validated by `datetime.date`. -/
def daysInMonth (y m : Nat) : Nat :=
  if m = 2 then (if isLeap y then 29 else 28)
  else if m = 4 || m = 6 || m = 9 || m = 11 then 30
  else 31

/-- Parse a `%Y` field: exactly four digits. -/
def parseY (s : List Char) : Option Nat :=
  if s.length = 4 && s.all Char.isDigit then some (digitsVal s) else none

/-- Parse a `%m` or `%d` field: one or two digits. -/
def parseMD (s : List Char) : Option Nat :=
  if (s.length = 1 || s.length = 2) && s.all Char.isDigit then some (digitsVal s) else none

/-- Construct a valid `datetime.date`, or fail with `ValueError`. -/
def mkDate (y m d : Nat) : Option PyVal :=
  if 1 ≤ y && y ≤ 9999 && 1 ≤ m && m ≤ 12 && 1 ≤ d && d ≤ daysInMonth y m then
    some (.vDate y m d)
  else none

/-- Model of `datetime.datetime.strptime(s, fmt).date()` for the three
formats used by the sources, returning `none` where Python raises
`ValueError`. -/
def strptimeDate (fmt : DateFmt) (s : String) : Option PyVal :=
  match fmt with
  | .ymdDash =>
      match splitOnChar '-' s.data with
      | [ys, ms, ds] => do mkDate (← parseY ys) (← parseMD ms) (← parseMD ds)
      | _ => none
  | .dmySlash =>
      match splitOnChar '/' s.data with
      | [ds, ms, ys] => do mkDate (← parseY ys) (← parseMD ms) (← parseMD ds)
      | _ => none
  | .ymdSlash =>
      match splitOnChar '/' s.data with
      | [ys, ms, ds] => do mkDate (← parseY ys) (← parseMD ms) (← parseMD ds)
      | _ => none

/-- The `for fmt in ['%Y-%m-%d', '%d/%m/%Y', '%Y/%m/%d']` loop of
`process_uk_price_paid_row` and `process_generic_row`: first successful
parse wins, `none` when every format fails. -/
def tryFormats (s : String) : Option PyVal :=
  (strptimeDate .ymdDash s) <|> (strptimeDate .dmySlash s) <|> (strptimeDate .ymdSlash s)

/-! ## Row type coercion (`ingestion.py`) -/

/-- The numeric columns of the ontime profile (the tuple at lines 162-169). -/
def ontimeNumCols : List String :=
  ["Year", "Quarter", "Month", "DayofMonth", "DayOfWeek",
   "DOT_ID_Reporting_Airline", "OriginAirportID", "OriginAirportSeqID",
   "OriginCityMarketID", "OriginWac", "DestAirportID", "DestAirportSeqID",
   "DestCityMarketID", "DestWac", "CRSDepTime", "DepTime",
   "DepDelay", "DepDelayMinutes", "DepDel15", "TaxiIn", "TaxiOut",
   "CRSArrTime", "ArrTime", "ArrDelay", "ArrDelayMinutes", "ArrDel15",
   "Cancelled", "Diverted", "CRSElapsedTime", "ActualElapsedTime",
   "AirTime", "Flights", "Distance", "DistanceGroup"]

/-- The subset converted with plain `int(value)` in the first branch. -/
def ontimeYmdGroup : List String :=
  ["Year", "Quarter", "Month", "DayofMonth", "DayOfWeek"]

/-- The subset converted with `int(float(value))`. -/
def ontimeFloatGroup : List String :=
  ["DepDelay", "ArrDelay", "Cancelled", "Diverted"]

/-- Per-cell logic of `process_ontime_row`.  `FlightDate` tries only the
`'%Y-%m-%d'` format (keeping the original value on `ValueError`); numeric
columns default to `0` on empty input or on a caught conversion failure. -/
def ontimeCell (col : String) (v : PyVal) : Except PyErr PyVal :=
  if col = "FlightDate" && pyTruthy v then
    .ok (match v with
      | .vStr s =>
          match strptimeDate .ymdDash s with
          | some dt => dt
          | none => .vStr s
      | w => w)
  else if ontimeNumCols.contains col then
    catchVT (
      if v = .vStr "" then .ok 0
      else if ontimeYmdGroup.contains col then pyIntOf v
      else if ontimeFloatGroup.contains col then pyIntFloatOf v
      else pyIntOf v)
  else .ok v

/-- The `type_map` lookup with default `0` (`dict.get(key, 0)`). -/
def ukTypeMap (s : String) : Int :=
  if s = "terraced" then 1
  else if s = "semi-detached" then 2
  else if s = "detached" then 3
  else if s = "flat" then 4
  else if s = "other" then 0
  else 0

/-- The `duration_map` lookup with default `0`. -/
def ukDurationMap (s : String) : Int :=
  if s = "freehold" then 1
  else if s = "leasehold" then 2
  else if s = "unknown" then 0
  else 0

/-- Model of Python `str(value)` for the values we model (dates print as
ISO `YYYY-MM-DD` with zero padding). -/
def pad2 (n : Nat) : String := if n < 10 then "0" ++ toString n else toString n

/-- Zero-pad a year to four digits. -/
def pad4 (n : Nat) : String :=
  if n < 10 then "000" ++ toString n
  else if n < 100 then "00" ++ toString n
  else if n < 1000 then "0" ++ toString n
  else toString n

/-- Python `str(value)`. -/
def pyStrOf : PyVal → String
  | .vNone => "None"
  | .vStr s => s
  | .vInt n => toString n
  | .vDate y m d => pad4 y ++ "-" ++ pad2 m ++ "-" ++ pad2 d

/-- Per-cell logic of `process_uk_price_paid_row`. -/
def ukCell (col : String) (v : PyVal) : Except PyErr PyVal :=
  if col = "price" then
    catchVT (if pyTruthy v then pyIntFloatOf v else .ok 0)
  else if col = "date" then
    .ok (match v with
      | .vStr s =>
          match tryFormats s with
          | some dt => dt
          | none => .vStr s
      | w => w)
  else if col = "type" then
    .ok (.vInt (ukTypeMap (match v with | .vStr s => pyLower s | _ => "")))
  else if col = "is_new" then
    .ok (match v with
      | .vStr s =>
          let l := pyLower s
          if l = "yes" || l = "true" || l = "1" || l = "y" then .vInt 1
          else if l = "no" || l = "false" || l = "0" || l = "n" then .vInt 0
          else .vInt (if s.isEmpty then 0 else 1)
      | w => .vInt (if pyTruthy w then 1 else 0))
  else if col = "duration" then
    .ok (.vInt (ukDurationMap (match v with | .vStr s => pyLower s | _ => "")))
  else if col = "postcode1" || col = "postcode2" then
    .ok (match v with
      | .vStr s => .vStr (pyStripStr (pyUpper s))
      | w => .vStr (pyStrOf w))
  else .ok v

/-- The alternation words of the numeric-hint pattern
`^(id|count|num|amount|price|total|sum|qty|quantity).*$`. -/
def hintWords : List String :=
  ["id", "count", "num", "amount", "price", "total", "sum", "qty", "quantity"]

/-- After the matched word, `.*$` accepts any run of non-newline characters,
optionally followed by one final newline (Python `$`). -/
def tailOkNL (x : List Char) : Bool :=
  (if x.getLast? = some '\n' then x.dropLast else x).all (fun c => c ≠ '\n')

/-- Model of `re.match(r'^(id|count|num|amount|price|total|sum|qty|quantity).*$',
col.lower())` as a Boolean. -/
def genericNumHint (col : String) : Bool :=
  hintWords.any (fun w =>
    w.data.isPrefixOf (pyLower col).data && tailOkNL ((pyLower col).data.drop w.length))

/-- Model of `col.lower().endswith('date')`. -/
def genericDateHint (col : String) : Bool :=
  "date".data.isSuffixOf (pyLower col).data

/-- Per-cell logic of `process_generic_row`.  On a numeric-hint column a
caught conversion failure leaves the value unchanged (`pass`), unlike the
named profiles. -/
def genericCell (col : String) (v : PyVal) : Except PyErr PyVal :=
  if genericDateHint col then
    .ok (match v with
      | .vStr s =>
          if s.isEmpty then .vStr s
          else
            match tryFormats s with
            | some dt => dt
            | none => .vStr s
      | w => w)
  else if genericNumHint col then
    match (if v = .vStr "" then Except.ok 0 else pyIntFloatOf v) with
    | .ok n => .ok (.vInt n)
    | .error (.valueError _) => .ok v
    | .error (.typeError _) => .ok v
    | .error e => .error e
  else .ok v

/-- The shared `for i, col in enumerate(columns): value = row[i]` loop shape
of the three row processors: cells are transformed positionally; a row
shorter than the column list raises `IndexError`; extra cells are ignored. -/
def processCells (cell : String → PyVal → Except PyErr PyVal) :
    List PyVal → List String → Except PyErr (List PyVal)
  | _, [] => .ok []
  | [], _ :: _ => .error (.indexError "list index out of range")
  | v :: vs, c :: cs => do
      let w ← cell c v
      let rest ← processCells cell vs cs
      pure (w :: rest)

/-- Model of `process_ontime_row`. -/
def process_ontime_row (row : List PyVal) (columns : List String) :
    Except PyErr (List PyVal) :=
  processCells ontimeCell row columns

/-- Model of `process_uk_price_paid_row`. -/
def process_uk_price_paid_row (row : List PyVal) (columns : List String) :
    Except PyErr (List PyVal) :=
  processCells ukCell row columns

/-- Model of `process_generic_row`. -/
def process_generic_row (row : List PyVal) (columns : List String) :
    Except PyErr (List PyVal) :=
  processCells genericCell row columns

/-! ## CSV encoding and decoding (`file_handler.py`)

`FileHandler.write_data` uses `csv.writer` with the default dialect
(quote character `"`, `doublequote=True`, `QUOTE_MINIMAL`, line terminator
`"\r\n"`): a field is quoted iff it contains the delimiter, the quote
character, `'\r'` or `'\n'`, or is the single empty field of a record.
`FileHandler.read_data` uses `csv.DictReader`, which is `csv.reader`'s
record parser plus a fieldname dictionary.  The reader is modelled as the
character-level state machine of CPython's `_csv` module (states
START_RECORD / START_FIELD / IN_FIELD / IN_QUOTED_FIELD /
QUOTE_IN_QUOTED_FIELD / EAT_CRNL), folded over the file contents. -/

/-- Double every quote character (the `doublequote=True` escaping). -/
def escQ : List Char → List Char
  | [] => []
  | c :: cs => if c = '"' then '"' :: '"' :: escQ cs else c :: escQ cs

/-- QUOTE_MINIMAL: does this field content force quoting? -/
def needsQuote (d : Char) (f : List Char) : Bool :=
  f.any (fun c => c = d || c = '"' || c = '\r' || c = '\n')

/-- A field rendered in quoted form. -/
def encFieldQ (f : List Char) : List Char := '"' :: (escQ f ++ ['"'])

/-- A field as `csv.writer` renders it (minimal quoting). -/
def encField (d : Char) (f : List Char) : List Char :=
  if needsQuote d f then encFieldQ f else f

/-- The delimiter-joined fields of a record. -/
def encFields (d : Char) : List (List Char) → List Char
  | [] => []
  | [f] => encField d f
  | f :: fs => encField d f ++ d :: encFields d fs

/-- One record as written by `csv.writer.writerow`, including the `"\r\n"`
terminator.  A record consisting of a single empty field is written as
`""` so that it is not mistaken for a blank line. -/
def encRecord (d : Char) (fs : List (List Char)) : List Char :=
  (match fs with
   | [] => []
   | [f] => if f = [] then encFieldQ [] else encField d f
   | _ => encFields d fs) ++ ['\r', '\n']

/-- The file contents produced by `FileHandler.write_data(columns, data)`:
header record then one record per row. -/
def write_data (d : Char) (columns : List String) (rows : List (List String)) :
    List Char :=
  encRecord d (columns.map String.data) ++
    (rows.map (fun r => encRecord d (r.map String.data))).flatten

/-- Parser states of the `_csv` reader state machine. -/
inductive CsvState where
  | startRecord
  | startField
  | inField
  | inQuoted
  | quoteInQuoted
  | eatLF
  deriving DecidableEq, Repr

/-- Parser accumulator: current state, current field, fields of the current
record, and the completed records. -/
structure CsvAcc where
  st : CsvState
  field : List Char
  record : List (List Char)
  recs : List (List (List Char))
  deriving DecidableEq, Repr

/-- Transition taken at the start of a record (also reached from `eatLF`
when the next character is not `'\n'`). -/
def csvStart (d : Char) (recs : List (List (List Char))) (c : Char) : CsvAcc :=
  if c = '\r' then ⟨.eatLF, [], [], recs ++ [[]]⟩
  else if c = '\n' then ⟨.startRecord, [], [], recs ++ [[]]⟩
  else if c = '"' then ⟨.inQuoted, [], [], recs⟩
  else if c = d then ⟨.startField, [], [[]], recs⟩
  else ⟨.inField, [c], [], recs⟩

/-- One character of the reader state machine. -/
def csvStep (d : Char) (a : CsvAcc) (c : Char) : CsvAcc :=
  match a.st with
  | .startRecord => csvStart d a.recs c
  | .startField =>
      if c = '\r' then ⟨.eatLF, [], [], a.recs ++ [a.record ++ [[]]]⟩
      else if c = '\n' then ⟨.startRecord, [], [], a.recs ++ [a.record ++ [[]]]⟩
      else if c = '"' then ⟨.inQuoted, [], a.record, a.recs⟩
      else if c = d then ⟨.startField, [], a.record ++ [[]], a.recs⟩
      else ⟨.inField, [c], a.record, a.recs⟩
  | .inField =>
      if c = '\r' then ⟨.eatLF, [], [], a.recs ++ [a.record ++ [a.field]]⟩
      else if c = '\n' then ⟨.startRecord, [], [], a.recs ++ [a.record ++ [a.field]]⟩
      else if c = d then ⟨.startField, [], a.record ++ [a.field], a.recs⟩
      else ⟨.inField, a.field ++ [c], a.record, a.recs⟩
  | .inQuoted =>
      if c = '"' then ⟨.quoteInQuoted, a.field, a.record, a.recs⟩
      else ⟨.inQuoted, a.field ++ [c], a.record, a.recs⟩
  | .quoteInQuoted =>
      if c = '"' then ⟨.inQuoted, a.field ++ ['"'], a.record, a.recs⟩
      else if c = d then ⟨.startField, [], a.record ++ [a.field], a.recs⟩
      else if c = '\r' then ⟨.eatLF, [], [], a.recs ++ [a.record ++ [a.field]]⟩
      else if c = '\n' then ⟨.startRecord, [], [], a.recs ++ [a.record ++ [a.field]]⟩
      else ⟨.inField, a.field ++ [c], a.record, a.recs⟩
  | .eatLF =>
      if c = '\n' then ⟨.startRecord, [], [], a.recs⟩
      else csvStart d a.recs c

/-- Flush the parser at end of input: a record in progress is emitted, as
CPython does for a final line without a terminator. -/
def csvFinish (a : CsvAcc) : List (List (List Char)) :=
  match a.st with
  | .startRecord => a.recs
  | .eatLF => a.recs
  | .startField => a.recs ++ [a.record ++ [[]]]
  | .inField => a.recs ++ [a.record ++ [a.field]]
  | .inQuoted => a.recs ++ [a.record ++ [a.field]]
  | .quoteInQuoted => a.recs ++ [a.record ++ [a.field]]

/-- The records of a CSV byte stream, blank lines included as `[]`. -/
def parseCSV (d : Char) (cs : List Char) : List (List (List Char)) :=
  csvFinish (cs.foldl (csvStep d) ⟨.startRecord, [], [], []⟩)

/-- The value of `dict(zip(fieldnames, row))[k]` with `restval=None` for a
short row: the last binding of `k` wins, a key beyond the row's length (or
absent) yields `none`. -/
def dlookup (ks : List String) (vs : List String) (k : String) : Option String :=
  (ks.zip vs).foldl (fun acc p => if p.1 = k then some p.2 else acc) none

/-- Model of `FileHandler.read_data(selected_columns)` on given file
contents: the first record is the `DictReader` header; blank-line records
are skipped; a row is projected to the selected columns, or silently
dropped when a selected column is absent from the header (`KeyError`).
Cells are `Option String` because a short row fills missing columns with
`None`. -/
def read_data (d : Char) (content : List Char) (sel : List String) :
    List (List (Option String)) :=
  match parseCSV d content with
  | [] => []
  | header :: body =>
      let hdr := header.map (fun cs => String.mk cs)
      (body.filter (fun r => !r.isEmpty)).filterMap (fun r =>
        if sel.all (fun c => hdr.contains c) then
          some (sel.map (dlookup hdr (r.map (fun cs => String.mk cs))))
        else none)

/-! ## Ingestion pipeline (`ingestion.py`) and its caller (`app.py`)

The pipeline is modelled as a pure function from the request data and a set
of I/O oracles (the file read result, the connection attempt, the per-batch
driver outcome) to the list of progress events emitted, the list of adapter
calls made, and the final outcome (`return` value or raised message). -/

/-- A progress event `progress_callback(current, total, phase)`. -/
structure Ev where
  cur : Nat
  tot : Nat
  phase : String
  deriving DecidableEq, Repr

/-- Database-adapter calls observable from the pipeline. -/
inductive Call where
  | connect : Call
  | insert (table : String) (columns : List String) (batch : List (List PyVal)) : Call
  deriving DecidableEq, Repr

/-- The batches taken by `for i in range(0, len(data), batch_size):
data[i:i+batch_size]`: chunk `k` is `data[k*bs : k*bs + bs]`, for
`k` in `range(ceil(len/bs))`. -/
def chunks (bs : Nat) (l : List (List PyVal)) : List (List (List PyVal)) :=
  (List.range ((l.length + bs - 1) / bs)).map (fun k => (l.drop (k * bs)).take bs)

/-- The progress value computed inside `FileHandler.read_data`:
`min(59, 15 + (rows_processed / row_count) * 45)`, truncated by `int(...)`. -/
def readEvVal (rc rp : Nat) : Nat := min 59 (15 + rp * 45 / rc)

/-- The events `FileHandler.read_data` emits: one `counting_rows` event,
then a `reading_data` event after each kept row whose 1-based index is a
multiple of `max(1, row_count // 100)` (only when `row_count > 0`).
`rc` is the first-pass line count minus one, `nrows` the number of rows
kept by the projection. -/
def read_data_events (rc nrows : Nat) : List Ev :=
  ⟨15, 100, "counting_rows"⟩ ::
    (((List.range nrows).filter
        (fun j => decide (0 < rc) && (j + 1) % (max 1 (rc / 100)) == 0)).map
      (fun j => ⟨readEvVal rc (j + 1), 100, "reading_data"⟩))

/-- The event emitted after inserting batch `bn` of `tb`:
`int(75 + (20 * batch_num / total_batches))`. -/
def batchEv (bn tb : Nat) : Ev :=
  ⟨75 + 20 * bn / tb, 100, "inserting_batch_" ++ toString bn ++ "_of_" ++ toString tb⟩

/-- The batch-insert loop: each batch is passed to
`ClickHouseClient.insert_data` (identifier validation included); on success
the batch event is emitted and the loop continues, on failure the raised
message propagates.  `k` is the number of batches already inserted. -/
def insertLoop (table : String) (columns : List String)
    (execRes : Nat → Except String Unit) (tb : Nat) :
    List (List (List PyVal)) → Nat → List Ev × List Call × Except String Unit
  | [], _ => ([], [], .ok ())
  | b :: bs, k =>
      match ClickHouseClient.insert_data table columns b (execRes k) with
      | .error msg => ([], [.insert table columns b], .error msg)
      | .ok _ =>
          let rest := insertLoop table columns execRes tb bs (k + 1)
          (batchEv (k + 1) tb :: rest.1, .insert table columns b :: rest.2.1, rest.2.2)

/-- The table-name dispatch choosing a coercion profile
(`"ontime" in table_name`, `"uk_price_paid" in table_name`, else generic). -/
def processRow (table : String) (columns : List String) (row : List PyVal) :
    Except PyErr (List PyVal) :=
  if hasSub "ontime" (pyLower table) then process_ontime_row row columns
  else if hasSub "uk_price_paid" (pyLower table) then process_uk_price_paid_row row columns
  else process_generic_row row columns

/-- The `for row in data: processed_data.append(...)` loop: each row is
coerced by the selected profile; the first raised exception propagates. -/
def processAll (table : String) (columns : List String) :
    List (List String) → Except PyErr (List (List PyVal))
  | [] => .ok []
  | r :: rt => do
      let p ← processRow table columns (r.map PyVal.vStr)
      let rest ← processAll table columns rt
      pure (p :: rest)

/-- The message prefix of the exception re-raised by
`ingest_file_to_clickhouse`'s `except` clause. -/
def ftcErrPre : String := "Error in file to ClickHouse ingestion: "

/-- The `except Exception` clause of `ingest_file_to_clickhouse`: emit one
`(0, 100, "error")` event, then re-raise with direction context. -/
def ftcFail (evs : List Ev) (calls : List Call) (msg : String) :
    List Ev × List Call × Except String Nat :=
  (evs ++ [⟨0, 100, "error"⟩], calls, .error (ftcErrPre ++ msg))

/-- Model of `ingest_file_to_clickhouse`.  `readRes` abstracts
`FileHandler.read_data` (the first-pass row count and the projected rows —
all CSV cells are strings), `connectRes` the `ClickHouseClient(...)`
constructor, and `execRes k` the driver outcome of the `k`-th batch insert
query. -/
def ingest_file_to_clickhouse (table : String) (columns : List String)
    (readRes : Except String (Nat × List (List String)))
    (connectRes : Except String Unit) (execRes : Nat → Except String Unit) :
    List Ev × List Call × Except String Nat :=
  let evs0 : List Ev := [⟨10, 100, "reading_file"⟩]
  match readRes with
  | .error msg => ftcFail evs0 [] msg
  | .ok (rc, rows) =>
      let evs1 := evs0 ++ read_data_events rc rows.length
      if rows.isEmpty then (evs1, [], .ok 0)
      else
        let evs2 := evs1 ++ [⟨60, 100, "connecting_to_clickhouse"⟩]
        match connectRes with
        | .error msg =>
            ftcFail evs2 [.connect] ("Failed to connect to ClickHouse: " ++ msg)
        | .ok _ =>
            let evs3 := evs2 ++ [⟨70, 100, "preparing_data"⟩]
            match processAll table columns rows with
            | .error e => ftcFail evs3 [.connect] (pyErrStr e)
            | .ok processed =>
                let evs4 := evs3 ++ [⟨75, 100, "inserting_data"⟩]
                let tb := (processed.length + 1000 - 1) / 1000
                let lp := insertLoop table columns execRes tb (chunks 1000 processed) 0
                match lp.2.2 with
                | .error msg => ftcFail (evs4 ++ lp.1) (.connect :: lp.2.1) msg
                | .ok _ =>
                    (evs4 ++ lp.1 ++ [⟨95, 100, "finalizing"⟩],
                      .connect :: lp.2.1, .ok processed.length)

/-- The message prefix of the exception re-raised by
`ingest_clickhouse_to_file`. -/
def ctfErrPre : String := "Error in ClickHouse to file ingestion: "

/-- The `except Exception` clause of `ingest_clickhouse_to_file`. -/
def ctfFail (evs : List Ev) (msg : String) : List Ev × Except String Nat :=
  (evs ++ [⟨0, 100, "error"⟩], .error (ctfErrPre ++ msg))

/-- Model of `ingest_clickhouse_to_file`.  The oracles abstract the driver
and the file system; the count and fetch go through the client models so
identifier validation is included. -/
def ingest_clickhouse_to_file (table : String) (columns : List String)
    (connectRes : Except String Unit) (countRes : Except String Nat)
    (fetchRes : Except String (List (List PyVal)))
    (writeRes : Except String Unit) : List Ev × Except String Nat :=
  let evs0 : List Ev := [⟨10, 100, "connecting"⟩]
  match connectRes with
  | .error msg => ctfFail evs0 ("Failed to connect to ClickHouse: " ++ msg)
  | .ok _ =>
      let evs1 := evs0 ++ [⟨20, 100, "fetching_metadata"⟩]
      match ClickHouseClient.count_rows table countRes with
      | .error msg => ctfFail evs1 msg
      | .ok _ =>
          let evs2 := evs1 ++ [⟨30, 100, "fetching_data"⟩]
          match ClickHouseClient.fetch_data table columns fetchRes with
          | .error msg => ctfFail evs2 msg
          | .ok qd =>
              let evs3 := evs2 ++ [⟨70, 100, "writing_file"⟩]
              match writeRes with
              | .error msg => ctfFail evs3 msg
              | .ok _ => (evs3 ++ [⟨95, 100, "finalizing"⟩], .ok qd.2.length)

/-- Model of `app.run_ingestion`: one `preparing` event, dispatch on the
direction string, then a terminal `completed` event on success or a second
`error` event on failure (the exception is not re-raised by the thread; the
outcome is reported on the result channel). -/
def run_ingestion (direction table : String) (columns : List String)
    (readRes : Except String (Nat × List (List String)))
    (connectRes : Except String Unit) (execRes : Nat → Except String Unit)
    (countRes : Except String Nat) (fetchRes : Except String (List (List PyVal)))
    (writeRes : Except String Unit) : List Ev × Except String Nat :=
  let inner :=
    if direction = "clickhouse_to_file" then
      ingest_clickhouse_to_file table columns connectRes countRes fetchRes writeRes
    else
      let r := ingest_file_to_clickhouse table columns readRes connectRes execRes
      (r.1, r.2.2)
  match inner.2 with
  | .ok n => (⟨0, 100, "preparing"⟩ :: inner.1 ++ [⟨100, 100, "completed"⟩], .ok n)
  | .error m => (⟨0, 100, "preparing"⟩ :: inner.1 ++ [⟨0, 100, "error"⟩], .error m)

/-- The batches handed to the insert calls of a call trace, in order. -/
def insertBatches (calls : List Call) : List (List (List PyVal)) :=
  calls.filterMap (fun c =>
    match c with
    | .insert _ _ b => some b
    | _ => none)

/-! ## Claim C10 — the coercers can raise (code bug)

The `except (ValueError, TypeError)` clauses around `int(float(value))` do
not catch the `OverflowError` raised by `int()` on an infinite float, so a
cell `"inf"` on a float-converted column propagates an exception out of all
three row processors, contradicting the never-raise contract of §4.4. -/

/-- C10 (code bug evidence): on the input cell `"inf"` each of the three
row processors raises an uncaught `OverflowError` instead of applying the
silent default, so the claim "terminates without raising" fails on the
code.  (`DepDelay` is in the ontime float group; `price` is float-converted
in both the uk profile and the generic numeric-hint branch.) -/
theorem c10_overflow_uncaught :
    process_ontime_row [.vStr "inf"] ["DepDelay"]
        = .error (.overflowError "cannot convert float infinity to integer")
    ∧ process_uk_price_paid_row [.vStr "inf"] ["price"]
        = .error (.overflowError "cannot convert float infinity to integer")
    ∧ process_generic_row [.vStr "inf"] ["price"]
        = .error (.overflowError "cannot convert float infinity to integer") :=
  ⟨rfl, rfl, rfl⟩

/-! ## Claim C4 — date coercion (corrected) -/

/-- C4 (counterexample): the claim asserts that every date-designated
column of every profile is parsed against all three candidate formats, so
`"15/01/2023"` would coerce to the same date as `"2023-01-15"`.  The ontime
profile's `FlightDate` only tries `'%Y-%m-%d'`: `"2023-01-15"` parses but
`"15/01/2023"` is left unchanged as a string. -/
theorem c4_counterexample :
    process_ontime_row [.vStr "2023-01-15"] ["FlightDate"] = .ok [.vDate 2023 1 15]
    ∧ process_ontime_row [.vStr "15/01/2023"] ["FlightDate"]
        = .ok [.vStr "15/01/2023"] :=
  ⟨rfl, rfl⟩

/-! ## Claim C8 — CSV round trip (corrected) -/

/-- C8 (counterexample): with a duplicated column name the round trip is
lossy — `DictReader` builds a dictionary, so the later binding of `"a"`
wins and both projected cells read back as `"y"`. -/
theorem c8_counterexample :
    read_data ',' (write_data ',' ["a", "a"] [["x", "y"]]) ["a", "a"]
        = [[some "y", some "y"]]
    ∧ [[some "y", some "y"]] ≠ [["x", "y"]].map (fun r => r.map some) := by
  decide

/-! ## Claim C1 — identifier validation (corrected) -/

/-- C1 (counterexample): `"a\n"` does not match the anchored regex
`^[A-Za-z0-9_]+$` read strictly, yet the code's `re.match` check accepts it
(Python's `$` matches before a trailing newline) and `count_rows` proceeds
to issue the query; moreover the table-name rejection message is a fixed
string that does not name the offending identifier. -/
theorem c1_counterexample :
    valid_ident "a\n" = true
    ∧ spec_ident_matches "a\n" = false
    ∧ ClickHouseClient.count_rows "a\n" (.ok 0) = .ok 0
    ∧ ClickHouseClient.count_rows "a;DROP" (.ok 0) = .error invalidTableMsg
    ∧ listHas "a;DROP".data invalidTableMsg.data = false :=
  ⟨by decide, by decide, rfl, rfl, by decide⟩

/-! ## Claim C3 — empty projection short-circuits (confirmed) -/

/-- C3: if the file read yields zero rows after projection, the pipeline
returns 0 with no adapter call of any kind (no connect, no insert). -/
theorem c3_empty_rows_short_circuit (table : String) (columns : List String)
    (rc : Nat) (connectRes : Except String Unit)
    (execRes : Nat → Except String Unit) :
    (ingest_file_to_clickhouse table columns (.ok (rc, [])) connectRes execRes).2.1 = []
    ∧ (ingest_file_to_clickhouse table columns (.ok (rc, [])) connectRes execRes).2.2
        = .ok 0 := by
  constructor <;> rfl

/-! ## Claim C5 — integer coercion (confirmed) -/

/-- On a float-converted ontime column, a non-empty cell whose float parse
raises `ValueError` defaults to 0. -/
theorem ontimeCell_depdelay_fail (s : String) (hs : s ≠ "")
    (hp : pyFloatTruncParse s = .fail) :
    ontimeCell "DepDelay" (.vStr s) = .ok (.vInt 0) := by
  have hv : (PyVal.vStr s = PyVal.vStr "") = False := by
    simp [hs]
  have h1 : "DepDelay" ∈ ontimeNumCols := by decide
  have h2 : "DepDelay" ∉ ontimeYmdGroup := by decide
  have h3 : "DepDelay" ∈ ontimeFloatGroup := by decide
  simp [ontimeCell, hv, h1, h2, h3, catchVT, pyIntFloatOf, hp]

/-- On the uk `price` column, a non-empty cell whose float parse raises
`ValueError` defaults to 0. -/
theorem ukCell_price_fail (s : String) (hs : s ≠ "")
    (hp : pyFloatTruncParse s = .fail) :
    ukCell "price" (.vStr s) = .ok (.vInt 0) := by
  have he : s.isEmpty = false := by
    rcases Bool.eq_false_or_eq_true s.isEmpty with h | h
    · exact absurd ((String.isEmpty_iff s).mp h) hs
    · exact h
  simp [ukCell, pyTruthy, he, catchVT, pyIntFloatOf, hp]

/-- On a generic numeric-hint column, a non-empty cell whose float parse
raises `ValueError` is left unchanged (the `pass` branch). -/
theorem genericCell_price_fail (s : String) (hs : s ≠ "")
    (hp : pyFloatTruncParse s = .fail) :
    genericCell "price" (.vStr s) = .ok (.vStr s) := by
  have hv : (PyVal.vStr s = PyVal.vStr "") = False := by
    simp [hs]
  have hd : genericDateHint "price" = false := by decide
  have hn : genericNumHint "price" = true := by decide
  simp [genericCell, hd, hn, hv, pyIntFloatOf, hp]

/-- C5: the empty string coerces to 0 in every profile; `"42"` parses as an
integer; `"3.7"` on a float-designated field truncates to 3; and for any
cell whose numeric parse fails with `ValueError`, the named profiles
default to 0 while the generic profile keeps the original value (`"abc"`
instantiates this). -/
theorem c5_integer_coercion :
    (process_ontime_row [.vStr ""] ["Year"] = .ok [.vInt 0]
     ∧ process_ontime_row [.vStr ""] ["DepDelay"] = .ok [.vInt 0]
     ∧ process_uk_price_paid_row [.vStr ""] ["price"] = .ok [.vInt 0]
     ∧ process_generic_row [.vStr ""] ["price"] = .ok [.vInt 0]
     ∧ process_ontime_row [.vStr "42"] ["Year"] = .ok [.vInt 42]
     ∧ process_uk_price_paid_row [.vStr "42"] ["price"] = .ok [.vInt 42]
     ∧ process_generic_row [.vStr "42"] ["amount"] = .ok [.vInt 42]
     ∧ process_ontime_row [.vStr "3.7"] ["DepDelay"] = .ok [.vInt 3]
     ∧ process_uk_price_paid_row [.vStr "3.7"] ["price"] = .ok [.vInt 3]
     ∧ process_generic_row [.vStr "3.7"] ["price"] = .ok [.vInt 3]
     ∧ process_ontime_row [.vStr "abc"] ["Year"] = .ok [.vInt 0]
     ∧ process_ontime_row [.vStr "abc"] ["DepDelay"] = .ok [.vInt 0]
     ∧ process_uk_price_paid_row [.vStr "abc"] ["price"] = .ok [.vInt 0]
     ∧ process_generic_row [.vStr "abc"] ["price"] = .ok [.vStr "abc"])
    ∧ (∀ s : String, s ≠ "" → pyFloatTruncParse s = .fail →
        process_ontime_row [.vStr s] ["DepDelay"] = .ok [.vInt 0]
        ∧ process_uk_price_paid_row [.vStr s] ["price"] = .ok [.vInt 0]
        ∧ process_generic_row [.vStr s] ["price"] = .ok [.vStr s]) := by
  constructor
  · exact ⟨rfl, rfl, rfl, rfl, rfl, rfl, rfl, rfl, rfl, rfl, rfl, rfl, rfl, rfl⟩
  · intro s hs hp
    refine ⟨?_, ?_, ?_⟩
    · simp only [process_ontime_row, processCells, ontimeCell_depdelay_fail s hs hp]
      rfl
    · simp only [process_uk_price_paid_row, processCells, ukCell_price_fail s hs hp]
      rfl
    · simp only [process_generic_row, processCells, genericCell_price_fail s hs hp]
      rfl

/-- C5 witness: the universal clause applied at the concrete cell `"abc"`. -/
theorem c5_witness :
    process_ontime_row [.vStr "abc"] ["DepDelay"] = .ok [.vInt 0]
    ∧ process_uk_price_paid_row [.vStr "abc"] ["price"] = .ok [.vInt 0]
    ∧ process_generic_row [.vStr "abc"] ["price"] = .ok [.vStr "abc"] :=
  c5_integer_coercion.2 "abc" (by decide) (by decide)

/-! ## Claim C9 — insertRows contract (confirmed) -/

/-- A column list whose members all pass validation validates. -/
theorem validate_columns_ok (cols : List String)
    (h : ∀ c ∈ cols, valid_ident c = true) : validate_columns cols = .ok () := by
  induction cols with
  | nil => rfl
  | cons c cs ih =>
      have hc := h c (List.mem_cons_self c cs)
      simp only [validate_columns, hc, if_true]
      exact ih (fun x hx => h x (List.mem_cons_of_mem c hx))

/-- A column list containing an invalid member fails validation. -/
theorem validate_columns_err (cols : List String)
    (h : ∃ c ∈ cols, valid_ident c = false) :
    ∃ m, validate_columns cols = .error m := by
  induction cols with
  | nil =>
      rcases h with ⟨c, hc, _⟩
      cases hc
  | cons c cs ih =>
      by_cases hv : valid_ident c = true
      · rcases h with ⟨x, hx, hxf⟩
        rcases List.mem_cons.mp hx with rfl | hx2
        · rw [hv] at hxf; cases hxf
        · rcases ih ⟨x, hx2, hxf⟩ with ⟨m, hm⟩
          exact ⟨m, by simp only [validate_columns, hv, if_true, hm]⟩
      · have hvf : valid_ident c = false := by
          cases hb : valid_ident c
          · rfl
          · exact absurd hb hv
        exact ⟨invalidColumnMsg c, by simp only [validate_columns, hvf,
          Bool.false_eq_true, if_false]⟩

/-- A valid insert issues the single bulk query carrying all rows. -/
theorem insert_data_ok (table : String) (columns : List String)
    (rows : List (List PyVal)) (hne : rows ≠ []) (htab : valid_ident table = true)
    (hcols : ∀ c ∈ columns, valid_ident c = true) :
    ClickHouseClient.insert_data table columns rows (.ok ()) =
      .ok ("INSERT INTO " ++ table ++ " (" ++ joinComma columns ++ ") VALUES",
        rows) := by
  have hvt : validate_table table = .ok () := by
    simp [validate_table, htab]
  have hvc := validate_columns_ok columns hcols
  have hie : rows.isEmpty = false := by
    cases rows with
    | nil => exact absurd rfl hne
    | cons r rs => rfl
  simp [ClickHouseClient.insert_data, hvt, hvc, hie]

/-- C9: `insert_data` fails whenever the row list is empty or the table
name or any column name fails the identifier-safety check; otherwise it
executes exactly one bulk insert query covering all given rows. -/
theorem c9_insert_rows (table : String) (columns : List String)
    (rows : List (List PyVal)) :
    (rows = [] → ∀ exec, ∃ m,
        ClickHouseClient.insert_data table columns rows exec = .error m)
    ∧ ((valid_ident table = false ∨ ∃ c ∈ columns, valid_ident c = false) →
        ∀ exec, ∃ m,
        ClickHouseClient.insert_data table columns rows exec = .error m)
    ∧ (rows ≠ [] → valid_ident table = true →
        (∀ c ∈ columns, valid_ident c = true) →
        ClickHouseClient.insert_data table columns rows (.ok ()) =
          .ok ("INSERT INTO " ++ table ++ " (" ++ joinComma columns ++ ") VALUES",
            rows)) := by
  refine ⟨?_, ?_, ?_⟩
  · rintro rfl exec
    cases hvt : validate_table table with
    | error e => exact ⟨e, by simp [ClickHouseClient.insert_data, hvt]⟩
    | ok u =>
        cases hvc : validate_columns columns with
        | error e => exact ⟨e, by simp [ClickHouseClient.insert_data, hvt, hvc]⟩
        | ok u2 =>
            exact ⟨"No data to insert", by
              simp [ClickHouseClient.insert_data, hvt, hvc]⟩
  · rintro (htab | hcol) exec
    · have hvt : validate_table table = .error invalidTableMsg := by
        simp [validate_table, htab]
      exact ⟨invalidTableMsg, by simp [ClickHouseClient.insert_data, hvt]⟩
    · cases hvt : validate_table table with
      | error e => exact ⟨e, by simp [ClickHouseClient.insert_data, hvt]⟩
      | ok u =>
          rcases validate_columns_err columns hcol with ⟨m, hm⟩
          exact ⟨m, by simp [ClickHouseClient.insert_data, hvt, hm]⟩
  · intro hne htab hcols
    exact insert_data_ok table columns rows hne htab hcols

/-- C9 witness: the theorem applied at a concrete valid insert and at the
empty row list. -/
theorem c9_witness :
    ClickHouseClient.insert_data "trips" ["price"] [[.vInt 3]] (.ok ()) =
      .ok ("INSERT INTO trips (price) VALUES", [[.vInt 3]]) :=
  (c9_insert_rows "trips" ["price"] [[.vInt 3]]).2.2 (by decide) (by decide)
    (by decide)

/-- A failed three-format cascade means every individual format failed. -/
theorem tryFormats_eq_none (s : String) (h : tryFormats s = none) :
    strptimeDate .ymdDash s = none ∧ strptimeDate .dmySlash s = none
      ∧ strptimeDate .ymdSlash s = none := by
  unfold tryFormats at h
  cases h1 : strptimeDate .ymdDash s with
  | some d => rw [h1] at h; simp [Option.orElse] at h
  | none =>
      rw [h1] at h
      cases h2 : strptimeDate .dmySlash s with
      | some d => rw [h2] at h; simp [Option.orElse] at h
      | none =>
          rw [h2] at h
          cases h3 : strptimeDate .ymdSlash s with
          | some d => rw [h3] at h; simp [Option.orElse] at h
          | none => exact ⟨rfl, rfl, rfl⟩

/-- C4 (amended): in the uk_price_paid profile (`date` column) and the
generic profile (column names ending in `date`) a string cell is parsed
against the ordered formats `YYYY-MM-DD`, `DD/MM/YYYY`, `YYYY/MM/DD`, first
success winning, so the three sample strings all coerce to the same
calendar date and an unparsable string is preserved unchanged with no
error; the ontime profile's `FlightDate`, however, is parsed against
`YYYY-MM-DD` only, the slash formats being preserved unchanged. -/
theorem c4_date_coercion_amended :
    (process_uk_price_paid_row [.vStr "2023-01-15"] ["date"] = .ok [.vDate 2023 1 15]
     ∧ process_uk_price_paid_row [.vStr "15/01/2023"] ["date"] = .ok [.vDate 2023 1 15]
     ∧ process_uk_price_paid_row [.vStr "2023/01/15"] ["date"] = .ok [.vDate 2023 1 15]
     ∧ process_uk_price_paid_row [.vStr "not-a-date"] ["date"] = .ok [.vStr "not-a-date"]
     ∧ process_generic_row [.vStr "2023-01-15"] ["saledate"] = .ok [.vDate 2023 1 15]
     ∧ process_generic_row [.vStr "15/01/2023"] ["saledate"] = .ok [.vDate 2023 1 15]
     ∧ process_generic_row [.vStr "2023/01/15"] ["saledate"] = .ok [.vDate 2023 1 15]
     ∧ process_generic_row [.vStr "not-a-date"] ["saledate"] = .ok [.vStr "not-a-date"]
     ∧ process_ontime_row [.vStr "2023-01-15"] ["FlightDate"] = .ok [.vDate 2023 1 15]
     ∧ process_ontime_row [.vStr "15/01/2023"] ["FlightDate"] = .ok [.vStr "15/01/2023"]
     ∧ process_ontime_row [.vStr "2023/01/15"] ["FlightDate"] = .ok [.vStr "2023/01/15"])
    ∧ (∀ (s : String) (dt : PyVal), strptimeDate .ymdDash s = some dt →
        tryFormats s = some dt)
    ∧ (∀ s : String, tryFormats s = none →
        process_uk_price_paid_row [.vStr s] ["date"] = .ok [.vStr s]
        ∧ process_generic_row [.vStr s] ["saledate"] = .ok [.vStr s])
    ∧ (∀ s : String, strptimeDate .ymdDash s = none →
        process_ontime_row [.vStr s] ["FlightDate"] = .ok [.vStr s]) := by
  refine ⟨⟨rfl, rfl, rfl, rfl, rfl, rfl, rfl, rfl, rfl, rfl, rfl⟩, ?_, ?_, ?_⟩
  · intro s dt h
    simp [tryFormats, h, Option.orElse]
  · intro s h
    constructor
    · have hcell : ukCell "date" (.vStr s) = .ok (.vStr s) := by
        simp [ukCell, h]
      simp only [process_uk_price_paid_row, processCells, hcell]
      rfl
    · have hd : genericDateHint "saledate" = true := by decide
      have hcell : genericCell "saledate" (.vStr s) = .ok (.vStr s) := by
        cases hie : s.isEmpty with
        | true => simp [genericCell, hd, hie]
        | false => simp [genericCell, hd, hie, h]
      simp only [process_generic_row, processCells, hcell]
      rfl
  · intro s h
    have hcell : ontimeCell "FlightDate" (.vStr s) = .ok (.vStr s) := by
      have hn : "FlightDate" ∉ ontimeNumCols := by decide
      cases hie : s.isEmpty with
      | true => simp [ontimeCell, pyTruthy, hie, hn]
      | false => simp [ontimeCell, pyTruthy, hie, h]
    simp only [process_ontime_row, processCells, hcell]
    rfl

/-- C4 witness: the amended theorem's universal clauses applied at the
concrete unparsable string `"99/99"`. -/
theorem c4_witness :
    (process_uk_price_paid_row [.vStr "99/99"] ["date"] = .ok [.vStr "99/99"]
      ∧ process_generic_row [.vStr "99/99"] ["saledate"] = .ok [.vStr "99/99"])
    ∧ process_ontime_row [.vStr "99/99"] ["FlightDate"] = .ok [.vStr "99/99"] :=
  ⟨c4_date_coercion_amended.2.2.1 "99/99" (by decide),
   c4_date_coercion_amended.2.2.2 "99/99" (by decide)⟩

/-! ## Claim C1 — identifier acceptance (corrected) -/

/-- String concatenation concatenates the character data. -/
theorem strDataAppend (a b : String) : (a ++ b).data = a.data ++ b.data := rfl

/-- A string is its character data. -/
theorem strMkData (s : String) : String.mk s.data = s := rfl

/-- Strings with equal character data are equal. -/
theorem strExt (a b : String) (h : a.data = b.data) : a = b := by
  rw [← strMkData a, ← strMkData b, h]

/-- takeWhile over an all-satisfying prefix. -/
theorem takeWhile_append_all (p : Char → Bool) (l₁ l₂ : List Char)
    (h : ∀ c ∈ l₁, p c = true) :
    (l₁ ++ l₂).takeWhile p = l₁ ++ l₂.takeWhile p := by
  induction l₁ with
  | nil => rfl
  | cons c t ih =>
      have hc := h c (List.mem_cons_self c t)
      simp only [List.cons_append, List.takeWhile_cons, hc, if_true]
      rw [ih (fun x hx => h x (List.mem_cons_of_mem c hx))]

/-- C1 (amended): the identifier check of the adapter accepts exactly the
strings matching `^[A-Za-z0-9_]+$` plus, through Python's `$` semantics,
the same strings with one trailing newline appended.  An invalid table name
makes every operation fail, before any query, with the fixed table message
(which does not quote the identifier); the first invalid column makes the
column-taking operations fail with a message quoting that column. -/
theorem c1_identifier_validation_amended :
    (∀ s : String, valid_ident s = true ↔
        (spec_ident_matches s = true ∨
          ∃ t, spec_ident_matches t = true ∧ s = t ++ "\n"))
    ∧ (∀ table : String, valid_ident table = false →
        ClickHouseClient.get_columns table = .error invalidTableMsg
        ∧ (∀ cnt, ClickHouseClient.count_rows table cnt = .error invalidTableMsg)
        ∧ (∀ columns res,
            ClickHouseClient.fetch_data table columns res = .error invalidTableMsg)
        ∧ (∀ columns res,
            ClickHouseClient.preview_data table columns res = .error invalidTableMsg)
        ∧ (∀ columns rows exec,
            ClickHouseClient.insert_data table columns rows exec
              = .error invalidTableMsg))
    ∧ (∀ (table c : String) (pre post : List String),
        valid_ident table = true → (∀ x ∈ pre, valid_ident x = true) →
        valid_ident c = false →
        (∀ res, ClickHouseClient.fetch_data table (pre ++ c :: post) res
            = .error (invalidColumnMsg c))
        ∧ (∀ res, ClickHouseClient.preview_data table (pre ++ c :: post) res
            = .error (invalidColumnMsg c))
        ∧ (∀ rows exec,
            ClickHouseClient.insert_data table (pre ++ c :: post) rows exec
              = .error (invalidColumnMsg c)))
    ∧ (∀ c : String, (invalidColumnMsg c).data
        = ("Invalid column name: " ++ sq).data ++ c.data
            ++ (sq ++ ". Only alphanumeric characters and underscores are allowed.").data) := by
  refine ⟨?_, ?_, ?_, ?_⟩
  · intro s
    have hsplit : s.data.takeWhile isWordChar ++ s.data.dropWhile isWordChar
        = s.data := List.takeWhile_append_dropWhile isWordChar s.data
    have hdrop : s.data.drop (s.data.takeWhile isWordChar).length
        = s.data.dropWhile isWordChar := by
      nth_rewrite 2 [← hsplit]
      rw [List.drop_left]
    have hkey : valid_ident s = true ↔
        (s.data.takeWhile isWordChar ≠ []
          ∧ (s.data.dropWhile isWordChar = []
              ∨ s.data.dropWhile isWordChar = ['\n'])) := by
      unfold valid_ident
      rw [hdrop]
      simp [List.isEmpty_iff]
    rw [hkey]
    constructor
    · rintro ⟨htw, hdw | hdw⟩
      · left
        have hl : s.data = s.data.takeWhile isWordChar := by
          conv_lhs => rw [← List.takeWhile_append_dropWhile isWordChar s.data]
          rw [hdw, List.append_nil]
        unfold spec_ident_matches
        have hne : s.data ≠ [] := by rw [hl]; exact htw
        have hall : s.data.all isWordChar = true := by
          refine List.all_eq_true.mpr (fun x hx => ?_)
          rw [hl] at hx
          exact List.mem_takeWhile_imp hx
        simp [List.isEmpty_iff, hne, hall]
      · right
        refine ⟨String.mk (s.data.takeWhile isWordChar), ?_, ?_⟩
        · unfold spec_ident_matches
          have hall : (s.data.takeWhile isWordChar).all isWordChar = true :=
            List.all_eq_true.mpr (fun x hx => List.mem_takeWhile_imp hx)
          simp [List.isEmpty_iff, htw, hall]
        · have hd : s.data = s.data.takeWhile isWordChar ++ ['\n'] := by
            nth_rewrite 1 [← hsplit]
            rw [hdw]
          apply strExt
          rw [strDataAppend]
          show s.data = s.data.takeWhile isWordChar ++ "\n".data
          have hnl : "\n".data = ['\n'] := by decide
          rw [hnl]
          exact hd
    · rintro (hspec | ⟨t, hspec, rfl⟩)
      · unfold spec_ident_matches at hspec
        simp only [Bool.and_eq_true, Bool.not_eq_true', List.isEmpty_iff] at hspec
        obtain ⟨hne, hall⟩ := hspec
        have hne2 : s.data ≠ [] := by
          intro hh
          rw [hh] at hne
          simp at hne
        have htw : s.data.takeWhile isWordChar = s.data := by
          have := takeWhile_append_all isWordChar s.data [] (List.all_eq_true.mp hall)
          simpa using this
        have hdw : s.data.dropWhile isWordChar = [] :=
          List.dropWhile_eq_nil_iff.mpr (List.all_eq_true.mp hall)
        exact ⟨by rw [htw]; exact hne2, Or.inl hdw⟩
      · unfold spec_ident_matches at hspec
        simp only [Bool.and_eq_true, Bool.not_eq_true', List.isEmpty_iff] at hspec
        obtain ⟨hne, hall⟩ := hspec
        have hne2 : t.data ≠ [] := by
          intro hh
          rw [hh] at hne
          simp at hne
        have hdata : (t ++ "\n").data = t.data ++ ['\n'] := strDataAppend t "\n"
        have htw1 : List.takeWhile isWordChar ['\n'] = ([] : List Char) := by decide
        have htw : (t ++ "\n").data.takeWhile isWordChar = t.data := by
          rw [hdata, takeWhile_append_all isWordChar t.data ['\n']
            (List.all_eq_true.mp hall), htw1, List.append_nil]
        have hdw : (t ++ "\n").data.dropWhile isWordChar = ['\n'] := by
          have hsplit := List.takeWhile_append_dropWhile isWordChar (t ++ "\n").data
          rw [htw, hdata] at hsplit
          exact List.append_cancel_left hsplit
        exact ⟨by rw [htw]; exact hne2, Or.inr hdw⟩
  · intro table htab
    have hvt : validate_table table = .error invalidTableMsg := by
      simp [validate_table, htab]
    refine ⟨?_, ?_, ?_, ?_, ?_⟩
    · simp [ClickHouseClient.get_columns, hvt]
    · intro cnt
      simp [ClickHouseClient.count_rows, hvt]
    · intro columns res
      simp [ClickHouseClient.fetch_data, hvt]
    · intro columns res
      simp [ClickHouseClient.preview_data, hvt]
    · intro columns rows exec
      simp [ClickHouseClient.insert_data, hvt]
  · intro table c pre post htab hpre hc
    have hvt : validate_table table = .ok () := by
      simp [validate_table, htab]
    have hvc : validate_columns (pre ++ c :: post) = .error (invalidColumnMsg c) := by
      induction pre with
      | nil => simp [validate_columns, hc]
      | cons x xs ih =>
          have hx := hpre x (List.mem_cons_self x xs)
          simp only [List.cons_append, validate_columns, hx, if_true]
          exact ih (fun y hy => hpre y (List.mem_cons_of_mem x hy))
    refine ⟨?_, ?_, ?_⟩
    · intro res
      simp [ClickHouseClient.fetch_data, hvt, hvc]
    · intro res
      simp [ClickHouseClient.preview_data, hvt, hvc]
    · intro rows exec
      simp [ClickHouseClient.insert_data, hvt, hvc]
  · intro c
    simp [invalidColumnMsg, strDataAppend, List.append_assoc]

/-- C1 witness: the amended theorem's rejection clauses applied to the
concrete invalid identifiers `"a;DROP"` (table) and `"a b"` (column). -/
theorem c1_witness :
    ClickHouseClient.get_columns "a;DROP" = .error invalidTableMsg
    ∧ (∀ res, ClickHouseClient.fetch_data "trips" ["ok_col", "a b"] res
        = .error (invalidColumnMsg "a b")) :=
  ⟨(c1_identifier_validation_amended.2.1 "a;DROP" (by decide)).1,
   (c1_identifier_validation_amended.2.2.1 "trips" "a b" ["ok_col"] []
      (by decide) (by decide) (by decide)).1⟩

/-! ## Claim C2 — batch splitting (confirmed) -/

/-- The number of batches is the ceiling of `len / bs`. -/
theorem chunks_length (bs : Nat) (l : List (List PyVal)) :
    (chunks bs l).length = (l.length + bs - 1) / bs := by
  simp [chunks]

/-- Concatenating the `n` leading size-`bs` slices of a list of length at
most `n * bs` reproduces the list. -/
theorem range_slices_join (bs : Nat) :
    ∀ (n : Nat) (l : List (List PyVal)), l.length ≤ n * bs →
      ((List.range n).map (fun k => (l.drop (k * bs)).take bs)).flatten = l := by
  intro n
  induction n with
  | zero =>
      intro l hl
      simp only [Nat.zero_mul, Nat.le_zero, List.length_eq_zero] at hl
      simp [hl]
  | succ n ih =>
      intro l hl
      have hsucc : (n + 1) * bs = n * bs + bs := by ring
      rw [List.range_succ_eq_map]
      simp only [List.map_cons, List.map_map, Nat.zero_mul, List.drop_zero,
        List.flatten_cons]
      have hmap : (List.range n).map
            ((fun k => (l.drop (k * bs)).take bs) ∘ Nat.succ)
          = (List.range n).map (fun k => ((l.drop bs).drop (k * bs)).take bs) := by
        refine List.map_congr_left (fun k _ => ?_)
        simp only [Function.comp]
        rw [List.drop_drop, Nat.succ_mul, Nat.add_comm]
      rw [hsucc] at hl
      rw [hmap, ih (l.drop bs) (by simp only [List.length_drop]; omega)]
      exact List.take_append_drop bs l

/-- Concatenating all batches reproduces the original list. -/
theorem chunks_join (bs : Nat) (hbs : 0 < bs) (l : List (List PyVal)) :
    (chunks bs l).flatten = l := by
  apply range_slices_join
  rcases Nat.eq_zero_or_pos l.length with h0 | hpos
  · simp [h0]
  · have h1 : (l.length + bs - 1) / bs = (l.length - 1) / bs + 1 := by
      have h2 : l.length + bs - 1 = (l.length - 1) + bs := by omega
      rw [h2, Nat.add_div_right _ hbs]
    rw [h1]
    have hdm := Nat.div_add_mod (l.length - 1) bs
    have hm : (l.length - 1) % bs < bs := Nat.mod_lt _ hbs
    calc l.length ≤ (l.length - 1) + 1 := by omega
      _ = bs * ((l.length - 1) / bs) + (l.length - 1) % bs + 1 := by omega
      _ ≤ bs * ((l.length - 1) / bs) + bs := by omega
      _ = ((l.length - 1) / bs + 1) * bs := by ring

/-- Every batch is non-empty. -/
theorem chunks_ne_nil (bs : Nat) (hbs : 0 < bs) (l : List (List PyVal)) :
    ∀ b ∈ chunks bs l, b ≠ [] := by
  intro b hb
  rw [chunks, List.mem_map] at hb
  rcases hb with ⟨k, hk, rfl⟩
  rw [List.mem_range] at hk
  have hkl : k * bs < l.length := by
    by_contra hge
    push_neg at hge
    have hle : (l.length + bs - 1) / bs ≤ k := by
      have h2 : l.length + bs - 1 ≤ bs * k + (bs - 1) := by
        have := Nat.mul_comm k bs
        omega
      calc (l.length + bs - 1) / bs ≤ (bs * k + (bs - 1)) / bs :=
            Nat.div_le_div_right h2
        _ = k + (bs - 1) / bs := Nat.mul_add_div hbs k (bs - 1)
        _ = k := by rw [Nat.div_eq_of_lt (by omega), Nat.add_zero]
    omega
  have hlen : ((l.drop (k * bs)).take bs).length = min bs (l.length - k * bs) := by
    simp [List.length_take, List.length_drop]
  intro hnil
  rw [hnil] at hlen
  simp at hlen
  omega

/-- Coercing all rows preserves the row count. -/
theorem processAll_length (table : String) (columns : List String) :
    ∀ (rows : List (List String)) (processed : List (List PyVal)),
      processAll table columns rows = .ok processed →
      processed.length = rows.length := by
  intro rows
  induction rows with
  | nil =>
      intro processed h
      cases h
      rfl
  | cons r rt ih =>
      intro processed h
      unfold processAll at h
      cases hp : processRow table columns (r.map PyVal.vStr) with
      | error e => rw [hp] at h; cases h
      | ok p =>
          rw [hp] at h
          cases hrest : processAll table columns rt with
          | error e =>
              rw [hrest] at h
              cases h
          | ok rest =>
              rw [hrest] at h
              cases h
              simp [ih rest hrest]

/-- When every identifier is valid, every batch is non-empty and the driver
accepts every insert, the batch loop emits one event per batch, records one
insert call per batch in order, and succeeds. -/
theorem insertLoop_ok (table : String) (columns : List String)
    (execRes : Nat → Except String Unit) (tb : Nat)
    (htab : valid_ident table = true)
    (hcols : ∀ c ∈ columns, valid_ident c = true)
    (hexec : ∀ k, execRes k = .ok ()) :
    ∀ (bs : List (List (List PyVal))) (k : Nat), (∀ b ∈ bs, b ≠ []) →
      (insertLoop table columns execRes tb bs k).1
          = (List.range bs.length).map (fun j => batchEv (k + 1 + j) tb)
      ∧ (insertLoop table columns execRes tb bs k).2.1
          = bs.map (fun b => Call.insert table columns b)
      ∧ (insertLoop table columns execRes tb bs k).2.2 = .ok () := by
  intro bs
  induction bs with
  | nil => exact fun k _ => ⟨rfl, rfl, rfl⟩
  | cons b bt ih =>
      intro k h
      have hb : b ≠ [] := h b (List.mem_cons_self _ _)
      have hins : ClickHouseClient.insert_data table columns b (execRes k)
          = .ok ("INSERT INTO " ++ table ++ " (" ++ joinComma columns
              ++ ") VALUES", b) := by
        rw [hexec k]
        exact insert_data_ok table columns b hb htab hcols
      have iht := ih (k + 1) (fun x hx => h x (List.mem_cons_of_mem b hx))
      refine ⟨?_, ?_, ?_⟩
      · show (insertLoop table columns execRes tb (b :: bt) k).1
            = (List.range (bt.length + 1)).map (fun j => batchEv (k + 1 + j) tb)
        rw [List.range_succ_eq_map]
        simp only [insertLoop, hins, List.map_cons, List.map_map, List.length_cons]
        congr 1
        rw [iht.1]
        refine List.map_congr_left (fun j _ => ?_)
        simp only [Function.comp]
        congr 1
        omega
      · simp only [insertLoop, hins, List.map_cons]
        rw [iht.2.1]
      · simp only [insertLoop, hins]
        exact iht.2.2

/-- Extracting the insert batches from a connect-then-inserts trace. -/
theorem insertBatches_trace (table : String) (columns : List String)
    (bs : List (List (List PyVal))) :
    insertBatches (Call.connect :: bs.map (fun b => Call.insert table columns b))
        = bs := by
  induction bs with
  | nil => rfl
  | cons b bt ih =>
      simp only [insertBatches, List.filterMap_cons, List.map_cons] at ih ⊢
      rw [ih]

/-- C2: for a non-empty coerced row sequence the pipeline makes exactly
`ceil(N / 1000)` insert calls, each carrying the corresponding consecutive
slice of 1000 rows, and the concatenation of the batches in call order is
the coerced row sequence. -/
theorem c2_batching (table : String) (columns : List String)
    (rc : Nat) (rows : List (List String)) (processed : List (List PyVal))
    (execRes : Nat → Except String Unit)
    (hrows : rows ≠ [])
    (hproc : processAll table columns rows = .ok processed)
    (htab : valid_ident table = true)
    (hcols : ∀ c ∈ columns, valid_ident c = true)
    (hexec : ∀ k, execRes k = .ok ()) :
    insertBatches
        (ingest_file_to_clickhouse table columns (.ok (rc, rows)) (.ok ())
          execRes).2.1
        = chunks 1000 processed
    ∧ (chunks 1000 processed).length = (processed.length + 1000 - 1) / 1000
    ∧ (chunks 1000 processed).flatten = processed
    ∧ 1 ≤ processed.length := by
  have hie : rows.isEmpty = false := by
    cases rows with
    | nil => exact absurd rfl hrows
    | cons r rs => rfl
  have hloop := insertLoop_ok table columns execRes
    ((processed.length + 1000 - 1) / 1000) htab hcols hexec
    (chunks 1000 processed) 0 (chunks_ne_nil 1000 (by omega) processed)
  have hcalls : (ingest_file_to_clickhouse table columns (.ok (rc, rows))
      (.ok ()) execRes).2.1
      = Call.connect :: (chunks 1000 processed).map
          (fun b => Call.insert table columns b) := by
    simp only [ingest_file_to_clickhouse, hie, hproc, Bool.false_eq_true,
      if_false, hloop.2.2, hloop.2.1]
  have hlen : processed.length = rows.length :=
    processAll_length table columns rows processed hproc
  refine ⟨?_, chunks_length 1000 processed, chunks_join 1000 (by omega) processed, ?_⟩
  · rw [hcalls]
    exact insertBatches_trace table columns (chunks 1000 processed)
  · rw [hlen]
    cases rows with
    | nil => exact absurd rfl hrows
    | cons r rs => simp

/-- C2 witness: a concrete transfer of three coerced rows with batch size
1000 makes one insert call whose batch is the whole sequence. -/
theorem c2_witness :
    insertBatches
        (ingest_file_to_clickhouse "trips" ["price"]
          (.ok (3, [["1"], ["2"], ["3"]])) (.ok ()) (fun _ => .ok ())).2.1
        = chunks 1000 [[.vInt 1], [.vInt 2], [.vInt 3]]
    ∧ (chunks 1000 [[.vInt 1], [.vInt 2], [.vInt 3]]).length = 1
    ∧ (chunks 1000 [[.vInt 1], [.vInt 2], [.vInt 3]]).flatten
        = [[.vInt 1], [.vInt 2], [.vInt 3]] := by
  have h := c2_batching "trips" ["price"] 3 [["1"], ["2"], ["3"]]
    [[.vInt 1], [.vInt 2], [.vInt 3]] (fun _ => .ok ())
    (by decide) (by rfl) (by decide) (by decide) (fun k => rfl)
  exact ⟨h.1, h.2.1, h.2.2.1⟩

/-! ## Claim C6 — failure path (confirmed) -/

/-- String append is associative. -/
theorem strAppendAssoc (a b c : String) : (a ++ b) ++ c = a ++ (b ++ c) := by
  apply strExt
  simp [strDataAppend, List.append_assoc]

/-- A batch-insert phase label is never the error phase. -/
theorem ins_batch_ne_error (s : String) : ("inserting_batch_" ++ s) ≠ "error" := by
  intro h
  have hd : ("inserting_batch_" ++ s).data = "error".data := by rw [h]
  rw [strDataAppend] at hd
  have hi : "inserting_batch_".data = 'i' :: "nserting_batch_".data := by decide
  have he : "error".data = 'e' :: "rror".data := by decide
  rw [hi, he] at hd
  simp at hd

/-- The events emitted inside the file read carry only the counting and
reading phases. -/
theorem read_events_phases (rc n : Nat) :
    ∀ e ∈ read_data_events rc n,
      e.phase = "counting_rows" ∨ e.phase = "reading_data" := by
  intro e he
  rw [read_data_events] at he
  rcases List.mem_cons.mp he with rfl | he2
  · left; rfl
  · rw [List.mem_map] at he2
    rcases he2 with ⟨j, _, rfl⟩
    right; rfl

/-- Every event of the batch loop carries a batch phase label. -/
theorem insertLoop_events_phases (table : String) (columns : List String)
    (execRes : Nat → Except String Unit) (tb : Nat) :
    ∀ (bs : List (List (List PyVal))) (k : Nat) (e : Ev),
      e ∈ (insertLoop table columns execRes tb bs k).1 →
      ∃ s, e.phase = "inserting_batch_" ++ s := by
  intro bs
  induction bs with
  | nil =>
      intro k e he
      cases he
  | cons b bt ih =>
      intro k e he
      cases hins : ClickHouseClient.insert_data table columns b (execRes k) with
      | error msg =>
          simp only [insertLoop, hins] at he
          cases he
      | ok q =>
          simp only [insertLoop, hins] at he
          rcases List.mem_cons.mp he with rfl | he2
          · refine ⟨toString (k + 1) ++ ("_of_" ++ toString tb), ?_⟩
            show ("inserting_batch_" ++ toString (k + 1)) ++ "_of_" ++ toString tb
                = "inserting_batch_" ++ (toString (k + 1) ++ ("_of_" ++ toString tb))
            rw [strAppendAssoc, strAppendAssoc]
          · exact ih (k + 1) e he2

/-- Packaging of the C6 conclusion once the trace shape is known. -/
theorem c6_pack (pre : List Ev) (cause : String)
    (hno : ∀ e ∈ pre, e.phase ≠ "error") :
    (∃ p, pre ++ [(⟨0, 100, "error"⟩ : Ev)] = p ++ [⟨0, 100, "error"⟩]
        ∧ ∀ e ∈ p, e.phase ≠ "error")
    ∧ (∃ c, ftcErrPre ++ cause = ftcErrPre ++ c)
    ∧ (∃ u v : List Char,
        (ftcErrPre ++ cause).data = u ++ "file to ClickHouse".data ++ v) := by
  refine ⟨⟨pre, rfl, hno⟩, ⟨cause, rfl⟩, ?_⟩
  refine ⟨"Error in ".data, " ingestion: ".data ++ cause.data, ?_⟩
  have hp : ftcErrPre.data
      = "Error in ".data ++ "file to ClickHouse".data ++ " ingestion: ".data := by
    decide
  rw [strDataAppend, hp]
  simp [List.append_assoc]

/-- The phases of the fixed pipeline events are never the error phase. -/
theorem ftc_prefix_phases (rc nrows : Nat) :
    (∀ e ∈ [(⟨10, 100, "reading_file"⟩ : Ev)], e.phase ≠ "error")
    ∧ (∀ e ∈ [(⟨10, 100, "reading_file"⟩ : Ev)] ++ read_data_events rc nrows
          ++ [⟨60, 100, "connecting_to_clickhouse"⟩], e.phase ≠ "error")
    ∧ (∀ e ∈ [(⟨10, 100, "reading_file"⟩ : Ev)] ++ read_data_events rc nrows
          ++ [⟨60, 100, "connecting_to_clickhouse"⟩] ++ [⟨70, 100, "preparing_data"⟩],
        e.phase ≠ "error") := by
  have hread : ∀ e ∈ read_data_events rc nrows, e.phase ≠ "error" := by
    intro e he
    rcases read_events_phases rc nrows e he with h | h <;> rw [h] <;> decide
  refine ⟨?_, ?_, ?_⟩
  · intro e he
    rcases List.mem_singleton.mp he with rfl
    decide
  · intro e he
    rcases List.mem_append.mp he with he1 | he2
    · rcases List.mem_append.mp he1 with he3 | he4
      · rcases List.mem_singleton.mp he3 with rfl
        decide
      · exact hread e he4
    · rcases List.mem_singleton.mp he2 with rfl
      decide
  · intro e he
    rcases List.mem_append.mp he with he1 | he2
    · rcases List.mem_append.mp he1 with he3 | he4
      · rcases List.mem_append.mp he3 with he5 | he6
        · rcases List.mem_singleton.mp he5 with rfl
          decide
        · exact hread e he6
      · rcases List.mem_singleton.mp he4 with rfl
        decide
    · rcases List.mem_singleton.mp he2 with rfl
      decide

/-- C6: whenever a `file_to_store` transfer fails at any stage, the event
trace ends with exactly one terminal `(0, 100, "error")` event (no earlier
event uses the error phase), and the raised message wraps the underlying
cause behind the direction-bearing prefix, so it contains the transfer
direction `"file to ClickHouse"`. -/
theorem c6_failure_path (table : String) (columns : List String)
    (readRes : Except String (Nat × List (List String)))
    (connectRes : Except String Unit) (execRes : Nat → Except String Unit)
    (m : String)
    (herr : (ingest_file_to_clickhouse table columns readRes connectRes
        execRes).2.2 = .error m) :
    (∃ pre, (ingest_file_to_clickhouse table columns readRes connectRes
          execRes).1 = pre ++ [⟨0, 100, "error"⟩]
        ∧ ∀ e ∈ pre, e.phase ≠ "error")
    ∧ (∃ cause, m = ftcErrPre ++ cause)
    ∧ (∃ u v : List Char, m.data = u ++ "file to ClickHouse".data ++ v) := by
  cases readRes with
  | error msg =>
      have h2 := herr
      simp only [ingest_file_to_clickhouse, ftcFail, Except.error.injEq] at h2
      subst h2
      exact c6_pack [⟨10, 100, "reading_file"⟩] msg (ftc_prefix_phases 0 0).1
  | ok p =>
      obtain ⟨rc, rows⟩ := p
      cases hemp : rows.isEmpty with
      | true =>
          have : (ingest_file_to_clickhouse table columns (.ok (rc, rows))
              connectRes execRes).2.2 = .ok 0 := by
            simp only [ingest_file_to_clickhouse, hemp, if_true]
          rw [this] at herr
          cases herr
      | false =>
          cases hconn : connectRes with
          | error msg =>
              have hm : (ingest_file_to_clickhouse table columns (.ok (rc, rows))
                  (.error msg) execRes).2.2
                  = .error (ftcErrPre ++ ("Failed to connect to ClickHouse: " ++ msg)) := by
                simp only [ingest_file_to_clickhouse, hemp, Bool.false_eq_true,
                  if_false, ftcFail]
              rw [hconn] at herr
              rw [hm] at herr
              have hm2 : m = ftcErrPre ++ ("Failed to connect to ClickHouse: " ++ msg) :=
                (Except.error.inj herr).symm
              subst hm2
              have hshape : (ingest_file_to_clickhouse table columns (.ok (rc, rows))
                  (.error msg) execRes).1
                  = ([(⟨10, 100, "reading_file"⟩ : Ev)] ++ read_data_events rc rows.length
                      ++ [⟨60, 100, "connecting_to_clickhouse"⟩]) ++ [⟨0, 100, "error"⟩] := by
                simp only [ingest_file_to_clickhouse, hemp, Bool.false_eq_true,
                  if_false, ftcFail]
              rw [hshape]
              exact c6_pack _ _ ((ftc_prefix_phases rc rows.length).2.1)
          | ok u =>
              cases hproc : processAll table columns rows with
              | error e =>
                  have hm : (ingest_file_to_clickhouse table columns (.ok (rc, rows))
                      (.ok u) execRes).2.2 = .error (ftcErrPre ++ pyErrStr e) := by
                    simp only [ingest_file_to_clickhouse, hemp, Bool.false_eq_true,
                      if_false, hproc, ftcFail]
                  rw [hconn] at herr
                  rw [hm] at herr
                  have hm2 : m = ftcErrPre ++ pyErrStr e := (Except.error.inj herr).symm
                  subst hm2
                  have hshape : (ingest_file_to_clickhouse table columns (.ok (rc, rows))
                      (.ok u) execRes).1
                      = ([(⟨10, 100, "reading_file"⟩ : Ev)] ++ read_data_events rc rows.length
                          ++ [⟨60, 100, "connecting_to_clickhouse"⟩]
                          ++ [⟨70, 100, "preparing_data"⟩]) ++ [⟨0, 100, "error"⟩] := by
                    simp only [ingest_file_to_clickhouse, hemp, Bool.false_eq_true,
                      if_false, hproc, ftcFail]
                  rw [hshape]
                  exact c6_pack _ _ ((ftc_prefix_phases rc rows.length).2.2)
              | ok processed =>
                  cases hloop : (insertLoop table columns execRes
                      ((processed.length + 1000 - 1) / 1000)
                      (chunks 1000 processed) 0).2.2 with
                  | ok v =>
                      have : (ingest_file_to_clickhouse table columns (.ok (rc, rows))
                          (.ok u) execRes).2.2 = .ok processed.length := by
                        simp only [ingest_file_to_clickhouse, hemp, Bool.false_eq_true,
                          if_false, hproc, hloop]
                      rw [hconn] at herr
                      rw [this] at herr
                      cases herr
                  | error msg =>
                      have hm : (ingest_file_to_clickhouse table columns (.ok (rc, rows))
                          (.ok u) execRes).2.2 = .error (ftcErrPre ++ msg) := by
                        simp only [ingest_file_to_clickhouse, hemp, Bool.false_eq_true,
                          if_false, hproc, hloop, ftcFail]
                      rw [hconn] at herr
                      rw [hm] at herr
                      have hm2 : m = ftcErrPre ++ msg := (Except.error.inj herr).symm
                      subst hm2
                      have hshape : (ingest_file_to_clickhouse table columns (.ok (rc, rows))
                          (.ok u) execRes).1
                          = (([(⟨10, 100, "reading_file"⟩ : Ev)]
                              ++ read_data_events rc rows.length
                              ++ [⟨60, 100, "connecting_to_clickhouse"⟩]
                              ++ [⟨70, 100, "preparing_data"⟩]
                              ++ [⟨75, 100, "inserting_data"⟩]
                              ++ (insertLoop table columns execRes
                                  ((processed.length + 1000 - 1) / 1000)
                                  (chunks 1000 processed) 0).1))
                            ++ [⟨0, 100, "error"⟩] := by
                        simp only [ingest_file_to_clickhouse, hemp, Bool.false_eq_true,
                          if_false, hproc, hloop, ftcFail]
                      rw [hshape]
                      refine c6_pack _ _ ?_
                      intro e he
                      rcases List.mem_append.mp he with he1 | he2
                      · rcases List.mem_append.mp he1 with he3 | he4
                        · exact (ftc_prefix_phases rc rows.length).2.2 e
                            (by simpa [List.append_assoc] using he3)
                        · rcases List.mem_singleton.mp he4 with rfl
                          decide
                      · rcases insertLoop_events_phases table columns execRes _ _ _ e he2
                          with ⟨s, hs⟩
                        rw [hs]
                        exact ins_batch_ne_error s

/-- C6 witness: the failure-path theorem applied to a concrete transfer
whose database connection attempt fails. -/
theorem c6_witness :
    (∃ pre, (ingest_file_to_clickhouse "trips" ["price"] (.ok (1, [["3"]]))
          (.error "boom") (fun _ => .ok ())).1 = pre ++ [⟨0, 100, "error"⟩]
        ∧ ∀ e ∈ pre, e.phase ≠ "error")
    ∧ (∃ cause,
        "Error in file to ClickHouse ingestion: Failed to connect to ClickHouse: boom"
          = ftcErrPre ++ cause)
    ∧ (∃ u v : List Char,
        ("Error in file to ClickHouse ingestion: Failed to connect to ClickHouse: boom" : String).data
          = u ++ "file to ClickHouse".data ++ v) :=
  c6_failure_path "trips" ["price"] (.ok (1, [["3"]])) (.error "boom")
    (fun _ => .ok ())
    "Error in file to ClickHouse ingestion: Failed to connect to ClickHouse: boom"
    (by rfl)

/-! ## Claim C7 — progress monotonicity (confirmed) -/

/-- The interior reading progress value is monotone in the row counter. -/
theorem readEvVal_mono (rc a b : Nat) (h : a ≤ b) :
    readEvVal rc a ≤ readEvVal rc b := by
  unfold readEvVal
  exact min_le_min (Nat.le_refl 59)
    (Nat.add_le_add_left (Nat.div_le_div_right (Nat.mul_le_mul_right 45 h)) 15)

/-- Bounds of the reading events: currents lie in `[15, 59]`. -/
theorem read_events_cur_facts (rc n : Nat) :
    ∀ e ∈ read_data_events rc n, 15 ≤ e.cur ∧ e.cur ≤ 59 := by
  intro e he
  rw [read_data_events] at he
  rcases List.mem_cons.mp he with rfl | he2
  · exact ⟨by decide, by decide⟩
  · rw [List.mem_map] at he2
    rcases he2 with ⟨j, _, rfl⟩
    exact ⟨le_min (by omega) (Nat.le_add_right 15 _), min_le_left 59 _⟩

/-- The reading events are emitted with non-decreasing currents. -/
theorem read_events_pairwise (rc n : Nat) :
    ((read_data_events rc n).map Ev.cur).Pairwise (· ≤ ·) := by
  rw [read_data_events]
  simp only [List.map_cons, List.map_map]
  rw [List.pairwise_cons]
  constructor
  · intro b hb
    rw [List.mem_map] at hb
    rcases hb with ⟨j, _, rfl⟩
    exact le_min (by omega) (Nat.le_add_right 15 _)
  · rw [List.pairwise_map]
    refine List.Pairwise.imp ?_ ((List.pairwise_lt_range n).filter _)
    intro a b hab
    exact readEvVal_mono rc (a + 1) (b + 1) (by omega)

/-- Batch events start at 75. -/
theorem batchEv_cur_lb (bn tb : Nat) : 75 ≤ (batchEv bn tb).cur :=
  Nat.le_add_right 75 _

/-- Batch events stay at or below 95 while the index is in range. -/
theorem batchEv_cur_ub (bn tb : Nat) (h : bn ≤ tb) (htb : 0 < tb) :
    (batchEv bn tb).cur ≤ 95 := by
  show 75 + 20 * bn / tb ≤ 95
  have h1 : 20 * bn / tb ≤ 20 := by
    calc 20 * bn / tb ≤ 20 * tb / tb :=
          Nat.div_le_div_right (Nat.mul_le_mul_left 20 h)
      _ = 20 := Nat.mul_div_cancel 20 htb
  omega

/-- Batch events are monotone in the batch number. -/
theorem batchEv_cur_mono (a b tb : Nat) (h : a ≤ b) :
    (batchEv a tb).cur ≤ (batchEv b tb).cur := by
  show 75 + 20 * a / tb ≤ 75 + 20 * b / tb
  have h1 : 20 * a / tb ≤ 20 * b / tb :=
    Nat.div_le_div_right (Nat.mul_le_mul_left 20 h)
  omega

/-- Bounds and monotonicity of the full batch event block. -/
theorem loop_events_cur_facts (tb : Nat) (htb : 0 < tb) :
    (∀ e ∈ (List.range tb).map (fun j => batchEv (1 + j) tb),
        75 ≤ e.cur ∧ e.cur ≤ 95)
    ∧ (((List.range tb).map (fun j => batchEv (1 + j) tb)).map Ev.cur).Pairwise
        (· ≤ ·) := by
  constructor
  · intro e he
    rw [List.mem_map] at he
    rcases he with ⟨j, hj, rfl⟩
    rw [List.mem_range] at hj
    exact ⟨batchEv_cur_lb _ _, batchEv_cur_ub _ _ (by omega) htb⟩
  · rw [List.map_map, List.pairwise_map]
    refine List.Pairwise.imp ?_ (List.pairwise_lt_range tb)
    intro a b hab
    exact batchEv_cur_mono (1 + a) (1 + b) tb (by omega)

/-- A successful batch loop emits exactly one event per batch, in order. -/
theorem insertLoop_ok_events (table : String) (columns : List String)
    (execRes : Nat → Except String Unit) (tb : Nat) :
    ∀ (bs : List (List (List PyVal))) (k : Nat),
      (insertLoop table columns execRes tb bs k).2.2 = .ok () →
      (insertLoop table columns execRes tb bs k).1
        = (List.range bs.length).map (fun j => batchEv (k + 1 + j) tb) := by
  intro bs
  induction bs with
  | nil => intro k _; rfl
  | cons b bt ih =>
      intro k hres
      cases hins : ClickHouseClient.insert_data table columns b (execRes k) with
      | error msg =>
          simp only [insertLoop, hins] at hres
          cases hres
      | ok q =>
          simp only [insertLoop, hins] at hres ⊢
          simp only [List.length_cons]
          rw [List.range_succ_eq_map]
          simp only [List.map_cons, List.map_map]
          congr 1
          rw [ih (k + 1) hres]
          refine List.map_congr_left (fun j _ => ?_)
          simp only [Function.comp]
          congr 1
          omega

/-- The event trace of a successful `file_to_store` run has one of two
shapes: the empty-projection short circuit, or the full pipeline with one
batch block. -/
theorem ftc_ok_events (table : String) (columns : List String)
    (readRes : Except String (Nat × List (List String)))
    (connectRes : Except String Unit) (execRes : Nat → Except String Unit)
    (n : Nat)
    (hok : (ingest_file_to_clickhouse table columns readRes connectRes
        execRes).2.2 = .ok n) :
    (∃ rc nrows, (ingest_file_to_clickhouse table columns readRes connectRes
        execRes).1 = ⟨10, 100, "reading_file"⟩ :: read_data_events rc nrows)
    ∨ (∃ rc nrows tb, 0 < tb ∧
        (ingest_file_to_clickhouse table columns readRes connectRes execRes).1
          = ⟨10, 100, "reading_file"⟩ :: (read_data_events rc nrows
            ++ [⟨60, 100, "connecting_to_clickhouse"⟩, ⟨70, 100, "preparing_data"⟩,
                ⟨75, 100, "inserting_data"⟩]
            ++ (List.range tb).map (fun j => batchEv (1 + j) tb)
            ++ [⟨95, 100, "finalizing"⟩])) := by
  cases readRes with
  | error msg =>
      simp only [ingest_file_to_clickhouse, ftcFail] at hok
      cases hok
  | ok p =>
      obtain ⟨rc, rows⟩ := p
      cases hemp : rows.isEmpty with
      | true =>
          left
          refine ⟨rc, rows.length, ?_⟩
          simp only [ingest_file_to_clickhouse, hemp, if_true]
          rfl
      | false =>
          cases hconn : connectRes with
          | error msg =>
              rw [hconn] at hok
              simp only [ingest_file_to_clickhouse, hemp, Bool.false_eq_true,
                if_false, ftcFail] at hok
              cases hok
          | ok u =>
              rw [hconn] at hok
              cases hproc : processAll table columns rows with
              | error e =>
                  simp only [ingest_file_to_clickhouse, hemp, Bool.false_eq_true,
                    if_false, hproc, ftcFail] at hok
                  cases hok
              | ok processed =>
                  cases hloop : (insertLoop table columns execRes
                      ((processed.length + 1000 - 1) / 1000)
                      (chunks 1000 processed) 0).2.2 with
                  | error msg =>
                      simp only [ingest_file_to_clickhouse, hemp, Bool.false_eq_true,
                        if_false, hproc, hloop, ftcFail] at hok
                      cases hok
                  | ok v =>
                      right
                      have hrne : rows ≠ [] := by
                        cases rows with
                        | nil => cases hemp
                        | cons r rt => exact List.cons_ne_nil r rt
                      have hlen : processed.length = rows.length :=
                        processAll_length table columns rows processed hproc
                      have hlen1 : 1 ≤ processed.length := by
                        rw [hlen]
                        cases rows with
                        | nil => exact absurd rfl hrne
                        | cons r rt => simp
                      have htb : 0 < (processed.length + 1000 - 1) / 1000 := by
                        have : (1000 : Nat) ≤ processed.length + 1000 - 1 := by omega
                        calc 0 < 1000 / 1000 := by omega
                          _ ≤ (processed.length + 1000 - 1) / 1000 :=
                              Nat.div_le_div_right this
                      refine ⟨rc, rows.length, (processed.length + 1000 - 1) / 1000,
                        htb, ?_⟩
                      have hloopev := insertLoop_ok_events table columns execRes
                        ((processed.length + 1000 - 1) / 1000)
                        (chunks 1000 processed) 0 hloop
                      rw [chunks_length] at hloopev
                      simp only [ingest_file_to_clickhouse, hemp, Bool.false_eq_true,
                        if_false, hproc, hloop, hloopev]
                      simp [List.append_assoc]

/-- The event trace of a successful `store_to_file` run is the fixed phase
sequence. -/
theorem ctf_ok_events (table : String) (columns : List String)
    (connectRes : Except String Unit) (countRes : Except String Nat)
    (fetchRes : Except String (List (List PyVal))) (writeRes : Except String Unit)
    (n : Nat)
    (hok : (ingest_clickhouse_to_file table columns connectRes countRes fetchRes
        writeRes).2 = .ok n) :
    (ingest_clickhouse_to_file table columns connectRes countRes fetchRes
        writeRes).1
      = [⟨10, 100, "connecting"⟩, ⟨20, 100, "fetching_metadata"⟩,
         ⟨30, 100, "fetching_data"⟩, ⟨70, 100, "writing_file"⟩,
         ⟨95, 100, "finalizing"⟩] := by
  cases connectRes with
  | error msg =>
      simp only [ingest_clickhouse_to_file, ctfFail] at hok
      cases hok
  | ok u =>
      cases hcnt : ClickHouseClient.count_rows table countRes with
      | error e =>
          simp only [ingest_clickhouse_to_file, hcnt, ctfFail] at hok
          cases hok
      | ok cnt =>
          cases hfetch : ClickHouseClient.fetch_data table columns fetchRes with
          | error e =>
              simp only [ingest_clickhouse_to_file, hcnt, hfetch, ctfFail] at hok
              cases hok
          | ok qd =>
              cases writeRes with
              | error e =>
                  simp only [ingest_clickhouse_to_file, hcnt, hfetch, ctfFail] at hok
                  cases hok
              | ok w =>
                  simp only [ingest_clickhouse_to_file, hcnt, hfetch]
                  rfl

/-- Monotone composition for the short (empty-projection) trace. -/
theorem pairwise_shape_read_only (B : List Nat)
    (hB : B.Pairwise (· ≤ ·)) (hBb : ∀ x ∈ B, 15 ≤ x ∧ x ≤ 59) :
    (10 :: B).Pairwise (· ≤ ·) := by
  rw [List.pairwise_cons]
  exact ⟨fun b hb => by have := hBb b hb; omega, hB⟩

/-- Monotone composition for the full pipeline trace. -/
theorem pairwise_shape_full (B D : List Nat)
    (hB : B.Pairwise (· ≤ ·)) (hD : D.Pairwise (· ≤ ·))
    (hBb : ∀ x ∈ B, 15 ≤ x ∧ x ≤ 59) (hDb : ∀ x ∈ D, 75 ≤ x ∧ x ≤ 95) :
    (10 :: (B ++ [60, 70, 75] ++ D ++ [95])).Pairwise (· ≤ ·) := by
  rw [List.pairwise_cons]
  constructor
  · intro b hb
    simp only [List.mem_append, List.mem_cons, List.mem_singleton,
      List.not_mem_nil, or_false] at hb
    rcases hb with ((h1 | h2) | h3) | h4
    · have := hBb b h1; omega
    · rcases h2 with rfl | rfl | rfl
      · omega
      · omega
      · omega
    · have := hDb b h3; omega
    · omega
  · rw [List.pairwise_append]
    refine ⟨?_, List.pairwise_singleton _ _, ?_⟩
    · rw [List.pairwise_append]
      refine ⟨?_, hD, ?_⟩
      · rw [List.pairwise_append]
        refine ⟨hB, ?_, ?_⟩
        · rw [List.pairwise_cons]
          constructor
          · intro b hb
            rcases List.mem_cons.mp hb with rfl | hb2
            · omega
            · rcases List.mem_singleton.mp hb2 with rfl
              omega
          · rw [List.pairwise_cons]
            refine ⟨?_, List.pairwise_singleton _ _⟩
            intro b hb
            rcases List.mem_singleton.mp hb with rfl
            omega
        · intro a ha b hb
          have := hBb a ha
          rcases List.mem_cons.mp hb with rfl | hb2
          · omega
          · rcases List.mem_cons.mp hb2 with rfl | hb3
            · omega
            · rcases List.mem_singleton.mp hb3 with rfl
              omega
      · intro a ha b hb
        have hd := hDb b hb
        rcases List.mem_append.mp ha with h1 | h2
        · have := hBb a h1; omega
        · rcases List.mem_cons.mp h2 with rfl | h3
          · omega
          · rcases List.mem_cons.mp h3 with rfl | h4
            · omega
            · rcases List.mem_singleton.mp h4 with rfl
              omega
    · intro a ha b hb
      rcases List.mem_singleton.mp hb with rfl
      rcases List.mem_append.mp ha with h1 | h2
      · rcases List.mem_append.mp h1 with h3 | h4
        · have := hBb a h3; omega
        · rcases List.mem_cons.mp h4 with rfl | h5
          · omega
          · rcases List.mem_cons.mp h5 with rfl | h6
            · omega
            · rcases List.mem_singleton.mp h6 with rfl
              omega
      · have := hDb a h2; omega

/-- Wrapping a monotone bounded inner trace with the `preparing` and
`completed` events of `run_ingestion` keeps the currents non-decreasing and
ends at `100/100`. -/
theorem run_wrap_facts (inner : List Ev)
    (hin : (inner.map Ev.cur).Pairwise (· ≤ ·))
    (hb : ∀ e ∈ inner, e.cur ≤ 100) :
    (((⟨0, 100, "preparing"⟩ : Ev) :: inner
        ++ [(⟨100, 100, "completed"⟩ : Ev)]).map Ev.cur).Pairwise (· ≤ ·)
    ∧ ∃ e, ((⟨0, 100, "preparing"⟩ : Ev) :: inner
        ++ [(⟨100, 100, "completed"⟩ : Ev)]).getLast? = some e
        ∧ e.cur = e.tot := by
  constructor
  · simp only [List.map_cons, List.map_append]
    rw [List.pairwise_append]
    refine ⟨?_, List.pairwise_singleton _ _, ?_⟩
    · rw [List.pairwise_cons]
      exact ⟨fun b _ => Nat.zero_le b, hin⟩
    · intro a ha b hbm
      rcases List.mem_singleton.mp hbm with rfl
      rcases List.mem_cons.mp ha with rfl | ha2
      · exact Nat.zero_le 100
      · rw [List.mem_map] at ha2
        rcases ha2 with ⟨e, he, rfl⟩
        exact hb e he
  · refine ⟨(⟨100, 100, "completed"⟩ : Ev), ?_, rfl⟩
    show ((⟨0, 100, "preparing"⟩ : Ev) :: inner
        ++ [(⟨100, 100, "completed"⟩ : Ev)]).getLast? = _
    rw [show (⟨0, 100, "preparing"⟩ : Ev) :: inner
        ++ [(⟨100, 100, "completed"⟩ : Ev)]
        = ((⟨0, 100, "preparing"⟩ : Ev) :: inner)
            ++ [⟨100, 100, "completed"⟩] from rfl]
    exact List.getLast?_concat _

/-- C7: for every successful transfer in either direction the emitted
currents are non-decreasing, and the final event before completion reports
`current = total`. -/
theorem c7_progress_monotone (direction table : String) (columns : List String)
    (readRes : Except String (Nat × List (List String)))
    (connectRes : Except String Unit) (execRes : Nat → Except String Unit)
    (countRes : Except String Nat)
    (fetchRes : Except String (List (List PyVal)))
    (writeRes : Except String Unit) (n : Nat)
    (hok : (run_ingestion direction table columns readRes connectRes execRes
        countRes fetchRes writeRes).2 = .ok n) :
    ((run_ingestion direction table columns readRes connectRes execRes
        countRes fetchRes writeRes).1.map Ev.cur).Chain' (· ≤ ·)
    ∧ ∃ e, (run_ingestion direction table columns readRes connectRes execRes
        countRes fetchRes writeRes).1.getLast? = some e ∧ e.cur = e.tot := by
  by_cases hdir : direction = "clickhouse_to_file"
  · cases hctf : (ingest_clickhouse_to_file table columns connectRes countRes
        fetchRes writeRes).2 with
    | error m =>
        have : (run_ingestion direction table columns readRes connectRes execRes
            countRes fetchRes writeRes).2 = .error m := by
          simp only [run_ingestion, hdir, if_true, hctf]
        rw [this] at hok
        cases hok
    | ok k =>
        have hev := ctf_ok_events table columns connectRes countRes fetchRes
          writeRes k hctf
        have hrun : (run_ingestion direction table columns readRes connectRes
            execRes countRes fetchRes writeRes).1
            = (⟨0, 100, "preparing"⟩ : Ev)
              :: (ingest_clickhouse_to_file table columns connectRes countRes
                  fetchRes writeRes).1 ++ [⟨100, 100, "completed"⟩] := by
          simp only [run_ingestion, hdir, if_true, hctf]
        rw [hrun, hev]
        have hfacts := run_wrap_facts
          [⟨10, 100, "connecting"⟩, ⟨20, 100, "fetching_metadata"⟩,
           ⟨30, 100, "fetching_data"⟩, ⟨70, 100, "writing_file"⟩,
           ⟨95, 100, "finalizing"⟩] (by decide) (by decide)
        exact ⟨hfacts.1.chain', hfacts.2⟩
  · cases hftc : (ingest_file_to_clickhouse table columns readRes connectRes
        execRes).2.2 with
    | error m =>
        have : (run_ingestion direction table columns readRes connectRes execRes
            countRes fetchRes writeRes).2 = .error m := by
          simp only [run_ingestion, hdir, if_false, hftc]
        rw [this] at hok
        cases hok
    | ok k =>
        have hrun : (run_ingestion direction table columns readRes connectRes
            execRes countRes fetchRes writeRes).1
            = (⟨0, 100, "preparing"⟩ : Ev)
              :: (ingest_file_to_clickhouse table columns readRes connectRes
                  execRes).1 ++ [⟨100, 100, "completed"⟩] := by
          simp only [run_ingestion, hdir, if_false, hftc]
        rcases ftc_ok_events table columns readRes connectRes execRes k hftc
          with ⟨rc, nrows, hev⟩ | ⟨rc, nrows, tb, htb, hev⟩
        · rw [hrun, hev]
          have hinp : ((⟨10, 100, "reading_file"⟩
              :: read_data_events rc nrows).map Ev.cur).Pairwise (· ≤ ·) := by
            simp only [List.map_cons]
            exact pairwise_shape_read_only _ (read_events_pairwise rc nrows)
              (by
                intro x hx
                rw [List.mem_map] at hx
                rcases hx with ⟨e, he, rfl⟩
                exact read_events_cur_facts rc nrows e he)
          have hinb : ∀ e ∈ ⟨10, 100, "reading_file"⟩
              :: read_data_events rc nrows, e.cur ≤ 100 := by
            intro e he
            rcases List.mem_cons.mp he with rfl | he2
            · decide
            · have := read_events_cur_facts rc nrows e he2
              omega
          have hfacts := run_wrap_facts _ hinp hinb
          exact ⟨hfacts.1.chain', hfacts.2⟩
        · rw [hrun, hev]
          have hloopf := loop_events_cur_facts tb htb
          have hinp : ((⟨10, 100, "reading_file"⟩ :: (read_data_events rc nrows
              ++ [⟨60, 100, "connecting_to_clickhouse"⟩,
                  ⟨70, 100, "preparing_data"⟩, ⟨75, 100, "inserting_data"⟩]
              ++ (List.range tb).map (fun j => batchEv (1 + j) tb)
              ++ [⟨95, 100, "finalizing"⟩])).map Ev.cur).Pairwise (· ≤ ·) := by
            simp only [List.map_cons, List.map_append]
            have hshape := pairwise_shape_full
              ((read_data_events rc nrows).map Ev.cur)
              (((List.range tb).map (fun j => batchEv (1 + j) tb)).map Ev.cur)
              (read_events_pairwise rc nrows) hloopf.2
              (by
                intro x hx
                rw [List.mem_map] at hx
                rcases hx with ⟨e, he, rfl⟩
                exact read_events_cur_facts rc nrows e he)
              (by
                intro x hx
                rw [List.mem_map] at hx
                rcases hx with ⟨e, he, rfl⟩
                exact hloopf.1 e he)
            simpa using hshape
          have hinb : ∀ e ∈ ⟨10, 100, "reading_file"⟩ :: (read_data_events rc nrows
              ++ [⟨60, 100, "connecting_to_clickhouse"⟩,
                  ⟨70, 100, "preparing_data"⟩, ⟨75, 100, "inserting_data"⟩]
              ++ (List.range tb).map (fun j => batchEv (1 + j) tb)
              ++ [⟨95, 100, "finalizing"⟩]), e.cur ≤ 100 := by
            intro e he
            rcases List.mem_cons.mp he with rfl | he2
            · decide
            · rcases List.mem_append.mp he2 with h1 | h2
              · rcases List.mem_append.mp h1 with h3 | h4
                · rcases List.mem_append.mp h3 with h5 | h6
                  · have := read_events_cur_facts rc nrows e h5
                    omega
                  · rcases List.mem_cons.mp h6 with rfl | h7
                    · decide
                    · rcases List.mem_cons.mp h7 with rfl | h8
                      · decide
                      · rcases List.mem_singleton.mp h8 with rfl
                        decide
                · have := hloopf.1 e h4
                  omega
              · rcases List.mem_singleton.mp h2 with rfl
                decide
          have hfacts := run_wrap_facts _ hinp hinb
          exact ⟨hfacts.1.chain', hfacts.2⟩

/-- C7 witness: the theorem applied to a concrete successful one-row
`file_to_store` transfer. -/
theorem c7_witness :
    ((run_ingestion "file_to_clickhouse" "trips" ["price"] (.ok (1, [["3"]]))
        (.ok ()) (fun _ => .ok ()) (.ok 0) (.ok []) (.ok ())).1.map
          Ev.cur).Chain' (· ≤ ·)
    ∧ ∃ e, (run_ingestion "file_to_clickhouse" "trips" ["price"]
        (.ok (1, [["3"]])) (.ok ()) (fun _ => .ok ()) (.ok 0) (.ok [])
        (.ok ())).1.getLast? = some e ∧ e.cur = e.tot :=
  c7_progress_monotone "file_to_clickhouse" "trips" ["price"] (.ok (1, [["3"]]))
    (.ok ()) (fun _ => .ok ()) (.ok 0) (.ok []) (.ok ()) 1 (by rfl)

/-! ## Claim C8 — CSV round trip (corrected): parser inversion -/

/-- Characters of an unquoted field are ordinary. -/
theorem needsQuote_false_facts (d : Char) (f : List Char)
    (h : needsQuote d f = false) :
    ∀ c ∈ f, c ≠ d ∧ c ≠ '"' ∧ c ≠ '\r' ∧ c ≠ '\n' := by
  intro c hc
  have h2 := List.any_eq_false.mp h c hc
  simp only [Bool.or_eq_true, decide_eq_true_eq, not_or] at h2
  obtain ⟨⟨⟨ha, hb⟩, hc2⟩, hd⟩ := h2
  exact ⟨ha, hb, hc2, hd⟩

/-- Ordinary characters accumulate into the current field. -/
theorem csv_fold_inField (d : Char) (f : List Char)
    (hf : ∀ c ∈ f, c ≠ d ∧ c ≠ '"' ∧ c ≠ '\r' ∧ c ≠ '\n')
    (cur : List Char) (rec : List (List Char)) (recs : List (List (List Char))) :
    f.foldl (csvStep d) ⟨.inField, cur, rec, recs⟩
      = ⟨.inField, cur ++ f, rec, recs⟩ := by
  induction f generalizing cur with
  | nil => simp
  | cons c t ih =>
      obtain ⟨h1, h2, h3, h4⟩ := hf c (List.mem_cons_self c t)
      rw [List.foldl_cons]
      have hstep : csvStep d ⟨.inField, cur, rec, recs⟩ c
          = ⟨.inField, cur ++ [c], rec, recs⟩ := by
        simp [csvStep, h1, h3, h4]
      rw [hstep, ih (fun x hx => hf x (List.mem_cons_of_mem c hx))]
      simp

/-- Inside quotes, the escaped field body accumulates, doubled quotes
collapsing to one. -/
theorem csv_fold_inQuoted (d : Char) (f : List Char)
    (cur : List Char) (rec : List (List Char)) (recs : List (List (List Char))) :
    (escQ f).foldl (csvStep d) ⟨.inQuoted, cur, rec, recs⟩
      = ⟨.inQuoted, cur ++ f, rec, recs⟩ := by
  induction f generalizing cur with
  | nil => simp [escQ]
  | cons c t ih =>
      by_cases hc : c = '"'
      · subst hc
        have he : escQ ('"' :: t) = '"' :: '"' :: escQ t := by
          simp [escQ]
        have h1 : csvStep d ⟨.inQuoted, cur, rec, recs⟩ '"'
            = ⟨.quoteInQuoted, cur, rec, recs⟩ := by
          simp [csvStep]
        have h2 : csvStep d ⟨.quoteInQuoted, cur, rec, recs⟩ '"'
            = ⟨.inQuoted, cur ++ ['"'], rec, recs⟩ := by
          simp [csvStep]
        rw [he, List.foldl_cons, List.foldl_cons, h1, h2, ih]
        simp
      · have he : escQ (c :: t) = c :: escQ t := by
          simp [escQ, hc]
        have h1 : csvStep d ⟨.inQuoted, cur, rec, recs⟩ c
            = ⟨.inQuoted, cur ++ [c], rec, recs⟩ := by
          simp [csvStep, hc]
        rw [he, List.foldl_cons, h1, ih]
        simp

/-- One encoded field followed by a delimiter moves to the next field with
the field recorded. -/
theorem csv_field_then_delim (d : Char) (hd1 : d ≠ '"') (hd2 : d ≠ '\r')
    (hd3 : d ≠ '\n') (f : List Char) (rec : List (List Char))
    (recs : List (List (List Char))) (tail : List Char) :
    ((encField d f ++ [d]) ++ tail).foldl (csvStep d) ⟨.startField, [], rec, recs⟩
      = tail.foldl (csvStep d) ⟨.startField, [], rec ++ [f], recs⟩ := by
  by_cases hq : needsQuote d f = true
  · have hsh : (encField d f ++ [d]) ++ tail
        = '"' :: (escQ f ++ ('"' :: d :: tail)) := by
      simp [encField, hq, encFieldQ, List.append_assoc]
    rw [hsh, List.foldl_cons]
    have h1 : csvStep d ⟨.startField, [], rec, recs⟩ '"'
        = ⟨.inQuoted, [], rec, recs⟩ := by
      simp [csvStep, Ne.symm hd1]
    rw [h1, List.foldl_append, csv_fold_inQuoted, List.foldl_cons]
    have h2 : csvStep d ⟨.inQuoted, [] ++ f, rec, recs⟩ '"'
        = ⟨.quoteInQuoted, [] ++ f, rec, recs⟩ := by
      simp [csvStep]
    rw [h2, List.foldl_cons]
    have h3 : csvStep d ⟨.quoteInQuoted, [] ++ f, rec, recs⟩ d
        = ⟨.startField, [], rec ++ [f], recs⟩ := by
      simp [csvStep, hd1]
    rw [h3]
  · have hq2 : needsQuote d f = false := by
      cases hb : needsQuote d f
      · rfl
      · exact absurd hb hq
    have hcl := needsQuote_false_facts d f hq2
    cases f with
    | nil =>
        have hsh : (encField d [] ++ [d]) ++ tail = d :: tail := by
          simp [encField, hq2]
        rw [hsh, List.foldl_cons]
        have h1 : csvStep d ⟨.startField, [], rec, recs⟩ d
            = ⟨.startField, [], rec ++ [[]], recs⟩ := by
          simp [csvStep, hd1, hd2, hd3]
        rw [h1]
    | cons c0 f' =>
        obtain ⟨g1, g2, g3, g4⟩ := hcl c0 (List.mem_cons_self c0 f')
        have hsh : (encField d (c0 :: f') ++ [d]) ++ tail
            = c0 :: (f' ++ (d :: tail)) := by
          simp [encField, hq2, List.append_assoc]
        rw [hsh, List.foldl_cons]
        have h1 : csvStep d ⟨.startField, [], rec, recs⟩ c0
            = ⟨.inField, [c0], rec, recs⟩ := by
          simp [csvStep, g1, g2, g3, g4]
        rw [h1, List.foldl_append,
          csv_fold_inField d f' (fun x hx => hcl x (List.mem_cons_of_mem c0 hx)),
          List.foldl_cons]
        have h2 : csvStep d ⟨.inField, [c0] ++ f', rec, recs⟩ d
            = ⟨.startField, [], rec ++ [c0 :: f'], recs⟩ := by
          simp [csvStep, hd2, hd3]
        rw [h2]

/-- One encoded field followed by the record terminator emits the record. -/
theorem csv_field_then_crlf (d : Char) (hd1 : d ≠ '"') (hd2 : d ≠ '\r')
    (hd3 : d ≠ '\n') (f : List Char) (rec : List (List Char))
    (recs : List (List (List Char))) (tail : List Char) :
    ((encField d f ++ ['\r', '\n']) ++ tail).foldl (csvStep d)
        ⟨.startField, [], rec, recs⟩
      = tail.foldl (csvStep d) ⟨.startRecord, [], [], recs ++ [rec ++ [f]]⟩ := by
  by_cases hq : needsQuote d f = true
  · have hsh : (encField d f ++ ['\r', '\n']) ++ tail
        = '"' :: (escQ f ++ ('"' :: '\r' :: '\n' :: tail)) := by
      simp [encField, hq, encFieldQ, List.append_assoc]
    rw [hsh, List.foldl_cons]
    have h1 : csvStep d ⟨.startField, [], rec, recs⟩ '"'
        = ⟨.inQuoted, [], rec, recs⟩ := by
      simp [csvStep, Ne.symm hd1]
    rw [h1, List.foldl_append, csv_fold_inQuoted, List.foldl_cons]
    have h2 : csvStep d ⟨.inQuoted, [] ++ f, rec, recs⟩ '"'
        = ⟨.quoteInQuoted, [] ++ f, rec, recs⟩ := by
      simp [csvStep]
    rw [h2, List.foldl_cons]
    have h3 : csvStep d ⟨.quoteInQuoted, [] ++ f, rec, recs⟩ '\r'
        = ⟨.eatLF, [], [], recs ++ [rec ++ [f]]⟩ := by
      simp [csvStep, Ne.symm hd2]
    rw [h3, List.foldl_cons]
    have h4 : csvStep d ⟨.eatLF, [], [], recs ++ [rec ++ [f]]⟩ '\n'
        = ⟨.startRecord, [], [], recs ++ [rec ++ [f]]⟩ := by
      simp [csvStep]
    rw [h4]
  · have hq2 : needsQuote d f = false := by
      cases hb : needsQuote d f
      · rfl
      · exact absurd hb hq
    have hcl := needsQuote_false_facts d f hq2
    cases f with
    | nil =>
        have hsh : (encField d [] ++ ['\r', '\n']) ++ tail = '\r' :: '\n' :: tail := by
          simp [encField, hq2]
        rw [hsh, List.foldl_cons]
        have h1 : csvStep d ⟨.startField, [], rec, recs⟩ '\r'
            = ⟨.eatLF, [], [], recs ++ [rec ++ [[]]]⟩ := by
          simp [csvStep]
        rw [h1, List.foldl_cons]
        have h2 : csvStep d ⟨.eatLF, [], [], recs ++ [rec ++ [[]]]⟩ '\n'
            = ⟨.startRecord, [], [], recs ++ [rec ++ [[]]]⟩ := by
          simp [csvStep]
        rw [h2]
    | cons c0 f' =>
        obtain ⟨g1, g2, g3, g4⟩ := hcl c0 (List.mem_cons_self c0 f')
        have hsh : (encField d (c0 :: f') ++ ['\r', '\n']) ++ tail
            = c0 :: (f' ++ ('\r' :: '\n' :: tail)) := by
          simp [encField, hq2, List.append_assoc]
        rw [hsh, List.foldl_cons]
        have h1 : csvStep d ⟨.startField, [], rec, recs⟩ c0
            = ⟨.inField, [c0], rec, recs⟩ := by
          simp [csvStep, g1, g2, g3, g4]
        rw [h1, List.foldl_append,
          csv_fold_inField d f' (fun x hx => hcl x (List.mem_cons_of_mem c0 hx)),
          List.foldl_cons]
        have h2 : csvStep d ⟨.inField, [c0] ++ f', rec, recs⟩ '\r'
            = ⟨.eatLF, [], [], recs ++ [rec ++ [c0 :: f']]⟩ := by
          simp [csvStep]
        rw [h2, List.foldl_cons]
        have h3 : csvStep d ⟨.eatLF, [], [], recs ++ [rec ++ [c0 :: f']]⟩ '\n'
            = ⟨.startRecord, [], [], recs ++ [rec ++ [c0 :: f']]⟩ := by
          simp [csvStep]
        rw [h3]

/-- A non-empty field sequence followed by the terminator parses back to
itself (record-in-progress form, from the start-of-field state). -/
theorem csv_fold_fields (d : Char) (hd1 : d ≠ '"') (hd2 : d ≠ '\r')
    (hd3 : d ≠ '\n') :
    ∀ (fs : List (List Char)), fs ≠ [] →
      ∀ (rec : List (List Char)) (recs : List (List (List Char)))
        (rest : List Char),
      ((encFields d fs ++ ('\r' :: '\n' :: rest)).foldl (csvStep d)
          ⟨.startField, [], rec, recs⟩)
        = rest.foldl (csvStep d) ⟨.startRecord, [], [], recs ++ [rec ++ fs]⟩ := by
  intro fs
  induction fs with
  | nil => intro h; exact absurd rfl h
  | cons f ft ih =>
      intro _ rec recs rest
      cases ft with
      | nil =>
          have hsh : encFields d [f] ++ ('\r' :: '\n' :: rest)
              = (encField d f ++ ['\r', '\n']) ++ rest := by
            simp [encFields, List.append_assoc]
          rw [hsh, csv_field_then_crlf d hd1 hd2 hd3]
      | cons g gt =>
          have hsh : encFields d (f :: g :: gt) ++ ('\r' :: '\n' :: rest)
              = (encField d f ++ [d])
                ++ (encFields d (g :: gt) ++ ('\r' :: '\n' :: rest)) := by
            simp [encFields, List.append_assoc]
          rw [hsh, csv_field_then_delim d hd1 hd2 hd3,
            ih (List.cons_ne_nil g gt) (rec ++ [f]) recs rest]
          simp [List.append_assoc]

/-- The record-start state behaves like the field-start state on any
character that is not a record terminator. -/
theorem csvStep_start_bridge (d : Char) (recs : List (List (List Char)))
    (c : Char) (h1 : c ≠ '\r') (h2 : c ≠ '\n') :
    csvStep d ⟨.startRecord, [], [], recs⟩ c
      = csvStep d ⟨.startField, [], [], recs⟩ c := by
  simp [csvStep, csvStart, h1, h2]

/-- The first character of a non-degenerate encoded field sequence is never
a record terminator. -/
theorem encFields_head (d : Char) (hd2 : d ≠ '\r') (hd3 : d ≠ '\n')
    (fs : List (List Char)) (hfs : fs ≠ []) (hfs2 : fs ≠ [[]]) :
    ∃ c0 t, encFields d fs = c0 :: t ∧ c0 ≠ '\r' ∧ c0 ≠ '\n' := by
  cases fs with
  | nil => exact absurd rfl hfs
  | cons f ft =>
      cases ft with
      | nil =>
          have hf : f ≠ [] := by
            intro h
            rw [h] at hfs2
            exact hfs2 rfl
          by_cases hq : needsQuote d f = true
          · exact ⟨'"', escQ f ++ ['"'],
              by simp [encFields, encField, hq, encFieldQ], by decide, by decide⟩
          · have hq2 : needsQuote d f = false := by
              cases hb : needsQuote d f
              · rfl
              · exact absurd hb hq
            cases f with
            | nil => exact absurd rfl hf
            | cons c0 f' =>
                obtain ⟨g1, g2, g3, g4⟩ :=
                  needsQuote_false_facts d _ hq2 c0 (List.mem_cons_self c0 f')
                exact ⟨c0, f', by simp [encFields, encField, hq2], g3, g4⟩
      | cons g gt =>
          by_cases hq : needsQuote d f = true
          · refine ⟨'"', (escQ f ++ ['"']) ++ d :: encFields d (g :: gt), ?_,
              by decide, by decide⟩
            simp [encFields, encField, hq, encFieldQ]
          · have hq2 : needsQuote d f = false := by
              cases hb : needsQuote d f
              · rfl
              · exact absurd hb hq
            cases f with
            | nil =>
                exact ⟨d, encFields d (g :: gt),
                  by simp [encFields, encField, hq2], hd2, hd3⟩
            | cons c0 f' =>
                obtain ⟨g1, g2, g3, g4⟩ :=
                  needsQuote_false_facts d _ hq2 c0 (List.mem_cons_self c0 f')
                refine ⟨c0, f' ++ d :: encFields d (g :: gt), ?_, g3, g4⟩
                simp [encFields, encField, hq2]

/-- One encoded record consumed from the record-start state appends that
record. -/
theorem csv_fold_record (d : Char) (hd1 : d ≠ '"') (hd2 : d ≠ '\r')
    (hd3 : d ≠ '\n') (fs : List (List Char))
    (recs : List (List (List Char))) (rest : List Char) :
    ((encRecord d fs ++ rest).foldl (csvStep d) ⟨.startRecord, [], [], recs⟩)
      = rest.foldl (csvStep d) ⟨.startRecord, [], [], recs ++ [fs]⟩ := by
  by_cases hnil : fs = []
  · subst hnil
    have hsh : encRecord d [] ++ rest = '\r' :: '\n' :: rest := by
      simp [encRecord]
    rw [hsh, List.foldl_cons]
    have h1 : csvStep d ⟨.startRecord, [], [], recs⟩ '\r'
        = ⟨.eatLF, [], [], recs ++ [[]]⟩ := by
      simp [csvStep, csvStart]
    rw [h1, List.foldl_cons]
    have h2 : csvStep d ⟨.eatLF, [], [], recs ++ [[]]⟩ '\n'
        = ⟨.startRecord, [], [], recs ++ [[]]⟩ := by
      simp [csvStep]
    rw [h2]
  · by_cases hsing : fs = [[]]
    · subst hsing
      have hsh : encRecord d [[]] ++ rest = '"' :: '"' :: '\r' :: '\n' :: rest := by
        simp [encRecord, encFieldQ, escQ]
      rw [hsh, List.foldl_cons]
      have h1 : csvStep d ⟨.startRecord, [], [], recs⟩ '"'
          = ⟨.inQuoted, [], [], recs⟩ := by
        simp [csvStep, csvStart, Ne.symm hd1]
      rw [h1, List.foldl_cons]
      have h2 : csvStep d ⟨.inQuoted, [], [], recs⟩ '"'
          = ⟨.quoteInQuoted, [], [], recs⟩ := by
        simp [csvStep]
      rw [h2, List.foldl_cons]
      have h3 : csvStep d ⟨.quoteInQuoted, [], [], recs⟩ '\r'
          = ⟨.eatLF, [], [], recs ++ [[[]]]⟩ := by
        simp [csvStep, Ne.symm hd2]
      rw [h3, List.foldl_cons]
      have h4 : csvStep d ⟨.eatLF, [], [], recs ++ [[[]]]⟩ '\n'
          = ⟨.startRecord, [], [], recs ++ [[[]]]⟩ := by
        simp [csvStep]
      rw [h4]
    · have hsh : encRecord d fs ++ rest
          = encFields d fs ++ ('\r' :: '\n' :: rest) := by
        cases fs with
        | nil => exact absurd rfl hnil
        | cons f ft =>
            cases ft with
            | nil =>
                have hf : f ≠ [] := by
                  intro h
                  rw [h] at hsing
                  exact hsing rfl
                simp [encRecord, encFields, hf, List.append_assoc]
            | cons g gt => simp [encRecord, encFields, List.append_assoc]
      rw [hsh]
      obtain ⟨c0, t, henc, hc1, hc2⟩ := encFields_head d hd2 hd3 fs hnil hsing
      rw [henc, List.cons_append, List.foldl_cons,
        csvStep_start_bridge d recs c0 hc1 hc2, ← List.foldl_cons,
        ← List.cons_append, ← henc]
      have hff := csv_fold_fields d hd1 hd2 hd3 fs hnil [] recs rest
      simpa using hff

/-- A whole encoded file parses back to its records. -/
theorem csv_parse_encRecords (d : Char) (hd1 : d ≠ '"') (hd2 : d ≠ '\r')
    (hd3 : d ≠ '\n') :
    ∀ (recs acc : List (List (List Char))),
      (((recs.map (encRecord d)).flatten).foldl (csvStep d)
          ⟨.startRecord, [], [], acc⟩)
        = ⟨.startRecord, [], [], acc ++ recs⟩ := by
  intro recs
  induction recs with
  | nil => intro acc; simp
  | cons r rt ih =>
      intro acc
      simp only [List.map_cons, List.flatten_cons]
      rw [csv_fold_record d hd1 hd2 hd3 r acc _, ih (acc ++ [r])]
      simp

/-- `parseCSV` inverts the writer. -/
theorem parseCSV_write (d : Char) (hd1 : d ≠ '"') (hd2 : d ≠ '\r')
    (hd3 : d ≠ '\n') (recs : List (List (List Char))) :
    parseCSV d ((recs.map (encRecord d)).flatten) = recs := by
  unfold parseCSV
  rw [csv_parse_encRecords d hd1 hd2 hd3 recs []]
  rfl

/-- The dictionary fold ignores pairs whose key differs from the lookup
key. -/
theorem dlookup_skip (c : String) (acc : Option String) :
    ∀ ps : List (String × String), (∀ p ∈ ps, p.1 ≠ c) →
      ps.foldl (fun a p => if p.1 = c then some p.2 else a) acc = acc := by
  intro ps
  induction ps generalizing acc with
  | nil => intro _; rfl
  | cons p pt ih =>
      intro h
      rw [List.foldl_cons]
      have hp : p.1 ≠ c := h p (List.mem_cons_self p pt)
      rw [if_neg hp]
      exact ih acc (fun q hq => h q (List.mem_cons_of_mem p hq))

/-- Looking up the head key of a duplicate-free dictionary yields the head
value. -/
theorem dlookup_cons_self (k0 v0 : String) (ks vs : List String)
    (hk : k0 ∉ ks) : dlookup (k0 :: ks) (v0 :: vs) k0 = some v0 := by
  unfold dlookup
  rw [List.zip_cons_cons, List.foldl_cons, if_pos rfl]
  refine dlookup_skip k0 (some v0) (ks.zip vs) (fun p hp => ?_)
  intro hc
  exact hk (hc ▸ (List.of_mem_zip hp).1)

/-- Lookups of other keys skip the head binding. -/
theorem dlookup_cons_ne (k0 v0 : String) (ks vs : List String) (c : String)
    (hc : c ≠ k0) : dlookup (k0 :: ks) (v0 :: vs) c = dlookup ks vs c := by
  unfold dlookup
  rw [List.zip_cons_cons, List.foldl_cons, if_neg (Ne.symm hc)]

/-- Projecting a duplicate-free header over a row of matching width
recovers the row. -/
theorem dlookup_proj (C : List String) :
    ∀ (r : List String), C.Nodup → r.length = C.length →
      C.map (dlookup C r) = r.map some := by
  induction C with
  | nil =>
      intro r _ hlen
      cases r with
      | nil => rfl
      | cons v vs => cases hlen
  | cons k ks ih =>
      intro r hnd hlen
      cases r with
      | nil => cases hlen
      | cons v vs =>
          have hk : k ∉ ks := (List.nodup_cons.mp hnd).1
          have hnd2 : ks.Nodup := (List.nodup_cons.mp hnd).2
          have hlen2 : vs.length = ks.length := by simpa using hlen
          simp only [List.map_cons]
          congr 1
          · exact dlookup_cons_self k v ks vs hk
          · rw [List.map_congr_left
              (fun c hc => dlookup_cons_ne k v ks vs c
                (fun h => hk (h ▸ hc)))]
            exact ih vs hnd2 hlen2

/-- Mapping `String.data` and re-packing with `String.mk` is the
identity. -/
theorem mapMkData (l : List String) :
    (l.map String.data).map (fun cs => String.mk cs) = l := by
  induction l with
  | nil => rfl
  | cons s t ih => rw [List.map_cons, List.map_cons, ih, strMkData]

/-- Projection over the body of the reader when every selected column is in
the header: with a duplicate-free header the projection recovers each
well-formed row. -/
theorem read_proj_fold (C : List String) (hnd : C.Nodup)
    (hcond : (C.all fun c => C.contains c) = true) :
    ∀ rows : List (List String), (∀ r ∈ rows, r.length = C.length) →
      ((rows.map (fun r => r.map String.data)).filterMap (fun r =>
        if C.all (fun c => C.contains c) then
          some (C.map (dlookup C (r.map (fun cs => String.mk cs))))
        else none))
      = rows.map (fun r => r.map (fun v => some v)) := by
  intro rows
  induction rows with
  | nil => intro _; rfl
  | cons r rs ih =>
      intro h
      have hr : r.length = C.length := h r (List.mem_cons_self r rs)
      have htl := ih (fun x hx => h x (List.mem_cons_of_mem r hx))
      have hf : (if C.all (fun c => C.contains c) then
            some (C.map (dlookup C
              ((r.map String.data).map (fun cs => String.mk cs))))
          else none)
          = some (r.map (fun v : String => some v)) := by
        rw [if_pos hcond, mapMkData r, dlookup_proj C r hnd hr]
      rw [List.map_cons, List.map_cons, List.filterMap_cons, hf]
      simp only []
      rw [htl]

/-- C8 (amended): for a non-empty, duplicate-free column list and rows with
one cell per column, writing with `write_data` and reading back with
`read_data` for the same columns yields the same rows in order (each cell
present, wrapped by the reader's `Option`).  The delimiter must not be the
quote character or a line terminator, as in any usable CSV dialect. -/
theorem c8_roundtrip_amended (d : Char) (C : List String)
    (rows : List (List String)) (hd1 : d ≠ '"') (hd2 : d ≠ '\r')
    (hd3 : d ≠ '\n') (hC : C ≠ []) (hnd : C.Nodup)
    (hrows : ∀ r ∈ rows, r.length = C.length) :
    read_data d (write_data d C rows) C
      = rows.map (fun r => r.map (fun v => some v)) := by
  have hp : parseCSV d (write_data d C rows)
      = C.map String.data :: rows.map (fun r => r.map String.data) := by
    have hw : write_data d C rows
        = ((C.map String.data :: rows.map (fun r => r.map String.data)).map
            (encRecord d)).flatten := by
      rw [List.map_cons, List.flatten_cons, List.map_map]
      rfl
    rw [hw, parseCSV_write d hd1 hd2 hd3]
  unfold read_data
  rw [hp]
  show ((rows.map (fun r => r.map String.data)).filter
      (fun r => !r.isEmpty)).filterMap
      (fun r =>
        if C.all (fun c =>
            ((C.map String.data).map (fun cs => String.mk cs)).contains c) then
          some (C.map (dlookup ((C.map String.data).map (fun cs => String.mk cs))
            (r.map (fun cs => String.mk cs))))
        else none)
      = rows.map (fun r => r.map (fun v => some v))
  rw [mapMkData C]
  have hfilter : (rows.map (fun r => r.map String.data)).filter
      (fun r => !r.isEmpty) = rows.map (fun r => r.map String.data) := by
    refine List.filter_eq_self.mpr (fun a ha => ?_)
    rw [List.mem_map] at ha
    rcases ha with ⟨r, hr, rfl⟩
    have hlen : r.length = C.length := hrows r hr
    cases r with
    | nil =>
        exfalso
        cases C with
        | nil => exact hC rfl
        | cons c cs => simp at hlen
    | cons x xs => rfl
  rw [hfilter]
  have hcond : (C.all fun c => C.contains c) = true := by
    rw [List.all_eq_true]
    intro c hc
    simpa using hc
  exact read_proj_fold C hnd hcond rows hrows

/-- C8 witness: the amended round trip at delimiter comma, columns
`["a", "b"]`, rows `[["x", "y"], ["", "q"]]`. -/
theorem c8_witness :
    read_data (Char.ofNat 44)
        (write_data (Char.ofNat 44) ["a", "b"] [["x", "y"], ["", "q"]])
        ["a", "b"]
      = [[some "x", some "y"], [some "", some "q"]] :=
  c8_roundtrip_amended (Char.ofNat 44) ["a", "b"] [["x", "y"], ["", "q"]]
    (by decide) (by decide) (by decide) (by decide) (by decide)
    (by decide)

end CHI
